import Mathlib

/-!
Verification of the debt-settlement engine `calculateTripDebts` from
`src/lib/debt-calculator.ts` of the travel-tab repository.

The TypeScript function is shallowly embedded below.  JavaScript numbers at
the input boundary are modelled by `JsNum` (a finite rational or one of the
non-finite values); all internal arithmetic is integer cents, exactly as in
the source.  Thrown `Error`s are modelled by the `Except DebtError` monad,
with one constructor per `throw` site of the source.  The unbounded `while`
loop of the greedy matcher is modelled by `greedyLoop` with an explicit
iteration bound: every iteration of the source loop removes at least one
entry from the combined remaining lists (the transfer is the minimum of the
two head amounts, so at least one head reaches zero), hence the bound
`debtorCents.length + creditorCents.length` supplied by `settlePhase` is
never exhausted; this is proved below (`greedyLoop_fuel_irrelevant`).
-/

abbrev UserId := String

/-- A JavaScript number as consumed by the debt calculator: a finite value
(modelled exactly as a rational) or one of NaN, Infinity, -Infinity. -/
inductive JsNum where
  | fin (q : ℚ)
  | nan
  | inf
  | negInf
deriving DecidableEq

/-- JavaScript `Number.isFinite`. -/
def JsNum.isFinite : JsNum → Bool
  | .fin _ => true
  | _ => false

/-- The JavaScript comparison `x < 0` (false for NaN, true for -Infinity). -/
def JsNum.ltZero : JsNum → Bool
  | .fin q => decide (q < 0)
  | .nan => false
  | .inf => false
  | .negInf => true

/-- `ExpensePayer` from `src/lib/debt/types.ts`: one person's contribution. -/
structure ExpensePayer where
  user_id : UserId
  amount_paid : JsNum
deriving DecidableEq

/-- `ExpenseShare`: one person's responsibility for an expense. -/
structure ExpenseShare where
  user_id : UserId
  amount_owed : JsNum
deriving DecidableEq

/-- `ExpenseInput`: an expense with its payers and shares. -/
structure ExpenseInput where
  id : String
  payers : List ExpensePayer
  shares : List ExpenseShare
deriving DecidableEq

/-- `BalanceEntry`: a member together with a (decimal) balance amount. -/
structure BalanceEntry where
  user_id : UserId
  amount : ℚ
deriving DecidableEq

/-- `SettlementTransaction`: `payer_id` (the debtor, who sends) should
transfer `amount` to `payee_id` (the creditor, who receives). -/
structure SettlementTransaction where
  payer_id : UserId
  payee_id : UserId
  amount : ℚ
deriving DecidableEq

/-- Internal `BalanceCentsEntry` of the source: a member and integer cents. -/
structure BalanceCentsEntry where
  user_id : UserId
  cents : Int
deriving DecidableEq

/-- One constructor per `throw` site of `debt-calculator.ts`, carrying the
data interpolated into the corresponding `Error` message. -/
inductive DebtError where
  | invalidAmount (amount : JsNum)
  | noPayers (expenseId : String)
  | noShares (expenseId : String)
  | payerNotMember (expenseId : String) (userId : UserId)
  | payerNegative (expenseId : String) (userId : UserId)
  | shareNotMember (expenseId : String) (userId : UserId)
  | shareNegative (expenseId : String) (userId : UserId)
  | unbalanceable (expenseId : String) (diffCents : Int)
  | netNotZero (sumCents : Int)
  | selfPayment
  | unsettled
deriving DecidableEq

/-- The expense id carried by an error, when its `Error` message contains
one.  `invalidAmount` (thrown inside `toCents`) carries none. -/
def DebtError.expenseId : DebtError → Option String
  | .noPayers e => some e
  | .noShares e => some e
  | .payerNotMember e _ => some e
  | .payerNegative e _ => some e
  | .shareNotMember e _ => some e
  | .shareNegative e _ => some e
  | .unbalanceable e _ => some e
  | _ => none

/-- `Number.EPSILON` = 2 ^ (-52). -/
def jsEpsilon : ℚ := 1 / 2 ^ 52

/-- `toCents`: reject non-finite amounts, then
`Math.round((amount + Number.EPSILON) * 100)`.  `Math.round` rounds half
toward positive infinity, which is Mathlib's `round`. -/
def toCents (amount : JsNum) : Except DebtError Int :=
  match amount with
  | .fin q => .ok (round ((q + jsEpsilon) * 100))
  | a => .error (.invalidAmount a)

/-- `fromCents`: `Number((cents / 100).toFixed(2))`, i.e. exactly the
rational `cents / 100`. -/
def fromCents (cents : Int) : ℚ := (cents : ℚ) / 100

/-- A `Map`/`Record` keyed by user id, as a total function with default 0
(the source always reads through `get(k) ?? 0`). -/
def setBal (bal : UserId → Int) (u : UserId) (v : Int) : UserId → Int :=
  fun x => if x = u then v else bal x

/-- Validation of one payer (membership, sign, finiteness — in source
order), returning its cents. -/
def checkPayer (members : List UserId) (eid : String) (p : ExpensePayer) :
    Except DebtError Int :=
  if p.user_id ∉ members then .error (.payerNotMember eid p.user_id)
  else if p.amount_paid.ltZero then .error (.payerNegative eid p.user_id)
  else toCents p.amount_paid

/-- Validation of one share, returning its cents. -/
def checkShare (members : List UserId) (eid : String) (s : ExpenseShare) :
    Except DebtError Int :=
  if s.user_id ∉ members then .error (.shareNotMember eid s.user_id)
  else if s.amount_owed.ltZero then .error (.shareNegative eid s.user_id)
  else toCents s.amount_owed

/-- The source's per-payer validation loop building `payerCentsByIndex`. -/
def checkPayers (members : List UserId) (eid : String) :
    List ExpensePayer → Except DebtError (List Int)
  | [] => .ok []
  | p :: rest =>
    match checkPayer members eid p with
    | .error err => .error err
    | .ok c =>
      match checkPayers members eid rest with
      | .error err => .error err
      | .ok cs => .ok (c :: cs)

/-- The source's per-share validation loop building `shareCentsByIndex`. -/
def checkShares (members : List UserId) (eid : String) :
    List ExpenseShare → Except DebtError (List Int)
  | [] => .ok []
  | s :: rest =>
    match checkShare members eid s with
    | .error err => .error err
    | .ok c =>
      match checkShares members eid rest with
      | .error err => .error err
      | .ok cs => .ok (c :: cs)

/-- The source's `bestIndex` scan: start at 0 and take a later index only
on a strictly larger share, so ties keep the first occurrence. -/
def bestShareIndex (shareCents : List Int) : Nat :=
  (List.range shareCents.length).foldl
    (fun best idx => if shareCents.getD best 0 < shareCents.getD idx 0 then idx else best) 0

/-- Rounding hardening of the source: when total paid and total owed cents
differ, add the whole difference to the largest share; fail if that share
would become negative. -/
def reconcileShares (eid : String) (totalPaidCents : Int) (shareCents : List Int) :
    Except DebtError (List Int) :=
  let totalOwedCents := shareCents.sum
  let diffCents := totalPaidCents - totalOwedCents
  if diffCents = 0 then .ok shareCents
  else
    let bestIndex := bestShareIndex shareCents
    let adjusted := shareCents.getD bestIndex 0 + diffCents
    if adjusted < 0 then .error (.unbalanceable eid diffCents)
    else .ok (shareCents.set bestIndex adjusted)

/-- All per-expense checks of the source, in source order: non-empty payers,
non-empty shares, payer validation, share validation, rounding
reconciliation.  Returns the payer cents and the reconciled share cents. -/
def checkExpense (members : List UserId) (e : ExpenseInput) :
    Except DebtError (List Int × List Int) :=
  if e.payers = [] then .error (.noPayers e.id)
  else if e.shares = [] then .error (.noShares e.id)
  else
    match checkPayers members e.id e.payers with
    | .error err => .error err
    | .ok payerCents =>
      match checkShares members e.id e.shares with
      | .error err => .error err
      | .ok shareCents =>
        match reconcileShares e.id payerCents.sum shareCents with
        | .error err => .error err
        | .ok adjusted => .ok (payerCents, adjusted)

/-- The source's balance-update loops: for each (user, delta) pair in order,
`bal.set(user, (bal.get(user) ?? 0) + delta)`. -/
def applyDeltas (bal : UserId → Int) : List (UserId × Int) → (UserId → Int)
  | [] => bal
  | (u, d) :: rest => applyDeltas (setBal bal u (bal u + d)) rest

/-- Processing of one expense: validate and reconcile, then add payer cents
to and subtract (reconciled) share cents from the running balances. -/
def processExpense (members : List UserId) (bal : UserId → Int) (e : ExpenseInput) :
    Except DebtError (UserId → Int) :=
  match checkExpense members e with
  | .error err => .error err
  | .ok (payerCents, shareCents) =>
    let bal1 := applyDeltas bal ((e.payers.map (fun p => p.user_id)).zip payerCents)
    let bal2 := applyDeltas bal1 ((e.shares.map (fun s => s.user_id)).zip
      (shareCents.map (fun c => -c)))
    .ok bal2

/-- The `for (const expense of expenses)` loop. -/
def accumulateBalances (members : List UserId) :
    List ExpenseInput → (UserId → Int) → Except DebtError (UserId → Int)
  | [], bal => .ok bal
  | e :: rest, bal =>
    match processExpense members bal e with
    | .error err => .error err
    | .ok bal1 => accumulateBalances members rest bal1

/-- The state built by the source's classification loop over `members`. -/
structure ClassifyResult where
  netBalances : UserId → ℚ
  creditors : List BalanceEntry
  debtors : List BalanceEntry
  creditorCents : List BalanceCentsEntry
  debtorCents : List BalanceCentsEntry
  netSumCents : Int

/-- Classification loop over `members` (in order, once per occurrence):
record the decimal net balance, accumulate the grand total, and partition
positive balances into creditors and negative ones into debtors. -/
def classifyMembers (bal : UserId → Int) : List UserId → ClassifyResult
  | [] =>
    { netBalances := fun _ => 0, creditors := [], debtors := []
      creditorCents := [], debtorCents := [], netSumCents := 0 }
  | m :: rest =>
    let cents := bal m
    let amount := fromCents cents
    let r := classifyMembers bal rest
    { netBalances := setBal0 r.netBalances m amount
      creditors := (if 0 < cents then [{ user_id := m, amount := amount }] else []) ++ r.creditors
      debtors := (if cents < 0 then [{ user_id := m, amount := fromCents |cents| }] else []) ++ r.debtors
      creditorCents := (if 0 < cents then [{ user_id := m, cents := cents }] else []) ++ r.creditorCents
      debtorCents := (if cents < 0 then [{ user_id := m, cents := |cents| }] else []) ++ r.debtorCents
      netSumCents := cents + r.netSumCents }
where
  /-- Record write `netBalances[memberId] = amount`. -/
  setBal0 (nb : UserId → ℚ) (u : UserId) (v : ℚ) : UserId → ℚ :=
    fun x => if x = u then v else nb x

/-- The comparator `sortByCentsDesc` (`b.cents - a.cents`) as the ordering
relation of a stable sort: descending by cents. -/
def sortByCentsDesc (a b : BalanceCentsEntry) : Prop := b.cents ≤ a.cents

instance : DecidableRel sortByCentsDesc :=
  fun a b => inferInstanceAs (Decidable (b.cents ≤ a.cents))

/-- Output record of `calculateTripDebts`. -/
structure DebtCalculationOutput where
  netBalances : UserId → ℚ
  creditors : List BalanceEntry
  debtors : List BalanceEntry
  settlements : List SettlementTransaction

/-- The greedy Min-Cash-Flow `while` loop.  `fuel` bounds the number of
iterations; each iteration drops at least one list head (the transfer is
`min` of the two heads), so the bound `ds.length + cs.length` used by
`settlePhase` is never reached.  Returns the emitted transactions together
with the remaining debtor and creditor suffixes (`slice(i)` / `slice(j)`)
inspected by the source's defensive exhaustion check. -/
def greedyLoop : Nat → List BalanceCentsEntry → List BalanceCentsEntry →
    Except DebtError (List SettlementTransaction × List BalanceCentsEntry × List BalanceCentsEntry)
  | _, [], cs => .ok ([], [], cs)
  | _, d :: ds, [] => .ok ([], d :: ds, [])
  | 0, d :: ds, c :: cs => .ok ([], d :: ds, c :: cs)
  | Nat.succ fuel, d :: ds, c :: cs =>
    let t := min d.cents c.cents
    if 0 < t ∧ d.user_id = c.user_id then .error .selfPayment
    else
      let ds' := if d.cents - t = 0 then ds
        else { user_id := d.user_id, cents := d.cents - t } :: ds
      let cs' := if c.cents - t = 0 then cs
        else { user_id := c.user_id, cents := c.cents - t } :: cs
      match greedyLoop fuel ds' cs' with
      | .error err => .error err
      | .ok (txs, remD, remC) =>
        .ok ((if 0 < t then
            [{ payer_id := d.user_id, payee_id := c.user_id, amount := fromCents t }]
          else []) ++ txs, remD, remC)

/-- Phases 3-6 of the source: classification, the zero-sum assertion, the
stable descending sorts, the early return for a settled trip, the greedy
matching loop and the defensive exhaustion check. -/
def settlePhase (members : List UserId) (bal : UserId → Int) :
    Except DebtError DebtCalculationOutput :=
  let r := classifyMembers bal members
  if r.netSumCents ≠ 0 then .error (.netNotZero r.netSumCents)
  else
    let creditorCents := List.insertionSort sortByCentsDesc r.creditorCents
    let debtorCents := List.insertionSort sortByCentsDesc r.debtorCents
    if debtorCents = [] ∨ creditorCents = [] then
      .ok { netBalances := r.netBalances, creditors := r.creditors
            debtors := r.debtors, settlements := [] }
    else
      match greedyLoop (debtorCents.length + creditorCents.length) debtorCents creditorCents with
      | .error err => .error err
      | .ok (settlements, remD, remC) =>
        if (remD.map (fun e => e.cents)).sum ≠ 0 ∨ (remC.map (fun e => e.cents)).sum ≠ 0 then
          .error .unsettled
        else
          .ok { netBalances := r.netBalances, creditors := r.creditors
                debtors := r.debtors, settlements := settlements }

/-- `calculateTripDebts` from `src/lib/debt-calculator.ts`. -/
def calculateTripDebts (expenses : List ExpenseInput) (members : List UserId) :
    Except DebtError DebtCalculationOutput :=
  match accumulateBalances members expenses (fun _ => 0) with
  | .error err => .error err
  | .ok bal => settlePhase members bal

/-! ### Specification-side definitions -/

instance {ε α : Type} [DecidableEq ε] [DecidableEq α] : DecidableEq (Except ε α) := fun x y =>
  match x, y with
  | .ok a, .ok b =>
    if h : a = b then .isTrue (by rw [h]) else .isFalse (fun hc => by cases hc; exact h rfl)
  | .error a, .error b =>
    if h : a = b then .isTrue (by rw [h]) else .isFalse (fun hc => by cases hc; exact h rfl)
  | .ok _, .error _ => .isFalse (fun hc => by cases hc)
  | .error _, .ok _ => .isFalse (fun hc => by cases hc)

/-- Whether an `Except` value is a success. -/
def exceptOk : Except ε α → Bool
  | .ok _ => true
  | .error _ => false

/-- The preconditions of the spec, as decided by the code itself: every
per-expense check (non-empty payers and shares, all referenced user ids in
`members`, all amounts finite and not negative, and the expense balanceable
after cent reconciliation) succeeds. -/
def validInput (expenses : List ExpenseInput) (members : List UserId) : Prop :=
  ∀ e ∈ expenses, exceptOk (checkExpense members e) = true

instance (expenses : List ExpenseInput) (members : List UserId) :
    Decidable (validInput expenses members) :=
  inferInstanceAs (Decidable (∀ e ∈ expenses, _))

/-- An input-integrity violation of a listed precondition, following the
spec's enumeration. -/
def violatesPrecondition (members : List UserId) (e : ExpenseInput) : Prop :=
  e.payers = [] ∨ e.shares = [] ∨
  (∃ p ∈ e.payers, p.user_id ∉ members) ∨ (∃ s ∈ e.shares, s.user_id ∉ members) ∨
  (∃ p ∈ e.payers, p.amount_paid.ltZero = true) ∨
  (∃ s ∈ e.shares, s.amount_owed.ltZero = true) ∨
  (∃ p ∈ e.payers, p.amount_paid.isFinite = false) ∨
  (∃ s ∈ e.shares, s.amount_owed.isFinite = false)

instance (members : List UserId) (e : ExpenseInput) :
    Decidable (violatesPrecondition members e) := by
  unfold violatesPrecondition; infer_instance

/-- The error of a result, when it failed. -/
def errorOf (r : Except DebtError DebtCalculationOutput) : Option DebtError :=
  match r with
  | .error err => some err
  | .ok _ => none

/-- The settlements of a result (none when the call failed). -/
def settlementsOf (r : Except DebtError DebtCalculationOutput) : List SettlementTransaction :=
  match r with
  | .ok o => o.settlements
  | .error _ => []

/-- The net balances of a result (all zero when the call failed). -/
def netBalancesOf (r : Except DebtError DebtCalculationOutput) : UserId → ℚ :=
  match r with
  | .ok o => o.netBalances
  | .error _ => fun _ => 0

/-- The debtors list of a result. -/
def debtorsOf (r : Except DebtError DebtCalculationOutput) : List BalanceEntry :=
  match r with
  | .ok o => o.debtors
  | .error _ => []

/-- The creditors list of a result. -/
def creditorsOf (r : Except DebtError DebtCalculationOutput) : List BalanceEntry :=
  match r with
  | .ok o => o.creditors
  | .error _ => []

/-- Total amount sent by `u` as `payer_id` across a transaction list. -/
def sentAmt (txs : List SettlementTransaction) (u : UserId) : ℚ :=
  (txs.map (fun tx => if tx.payer_id = u then tx.amount else 0)).sum

/-- Total amount received by `u` as `payee_id` across a transaction list. -/
def recvAmt (txs : List SettlementTransaction) (u : UserId) : ℚ :=
  (txs.map (fun tx => if tx.payee_id = u then tx.amount else 0)).sum

/-- Replaying the settlement transactions against the net balances: each
transaction adds its amount to the payer's balance (the debtor sends money,
erasing debt) and subtracts it from the payee's balance. -/
def replayBalance (netBalances : UserId → ℚ) (txs : List SettlementTransaction)
    (u : UserId) : ℚ :=
  netBalances u + sentAmt txs u - recvAmt txs u

/-- Sum of the deltas applying to user `u` in a (user, delta) list. -/
def deltaOf (pairs : List (UserId × Int)) (u : UserId) : Int :=
  (pairs.map (fun p => if p.1 = u then p.2 else 0)).sum

/-- Total of the cents-entries of `l` belonging to user `u`. -/
def centsOf (l : List BalanceCentsEntry) (u : UserId) : Int :=
  (l.map (fun e => if e.user_id = u then e.cents else 0)).sum

/-- Sum of the balances of all members (counting duplicate occurrences
once per occurrence, as the source's classification loop does). -/
def sumBal (members : List UserId) (bal : UserId → Int) : Int :=
  (members.map bal).sum

/-- The net cent effect of a single (valid) expense on user `u`: payer
cents added, reconciled share cents subtracted. -/
def expenseDelta (members : List UserId) (e : ExpenseInput) (u : UserId) : Int :=
  match checkExpense members e with
  | .error _ => 0
  | .ok (payerCents, shareCents) =>
    deltaOf ((e.payers.map (fun p => p.user_id)).zip payerCents) u +
    deltaOf ((e.shares.map (fun s => s.user_id)).zip (shareCents.map (fun c => -c))) u

/-! ### Basic lemmas about balance maps and delta application -/

theorem setBal_apply (bal : UserId → Int) (u : UserId) (v : Int) (x : UserId) :
    setBal bal u v x = if x = u then v else bal x := rfl

theorem deltaOf_nil (u : UserId) : deltaOf [] u = 0 := rfl

theorem deltaOf_cons (a : UserId × Int) (rest : List (UserId × Int)) (u : UserId) :
    deltaOf (a :: rest) u = (if a.1 = u then a.2 else 0) + deltaOf rest u := by
  simp [deltaOf]

theorem applyDeltas_apply : ∀ (pairs : List (UserId × Int)) (bal : UserId → Int) (u : UserId),
    applyDeltas bal pairs u = bal u + deltaOf pairs u
  | [], bal, u => by simp [applyDeltas, deltaOf]
  | (a, d) :: rest, bal, u => by
    rw [applyDeltas, applyDeltas_apply rest, deltaOf_cons, setBal_apply]
    by_cases h : u = a
    · subst h
      simp only [if_pos rfl, if_true]
      omega
    · have h2 : ¬(a = u) := fun hc => h hc.symm
      simp only [if_neg h, if_neg h2]
      omega

theorem sumBal_nil (bal : UserId → Int) : sumBal [] bal = 0 := rfl

theorem sumBal_cons (m : UserId) (l : List UserId) (bal : UserId → Int) :
    sumBal (m :: l) bal = bal m + sumBal l bal := by
  simp [sumBal]

theorem sumBal_setBal_not_mem : ∀ (l : List UserId) (bal : UserId → Int) (u : UserId)
    (v : Int), u ∉ l → sumBal l (setBal bal u v) = sumBal l bal
  | [], _, _, _, _ => rfl
  | m :: l, bal, u, v, h => by
    rw [sumBal_cons, sumBal_cons, setBal_apply,
      sumBal_setBal_not_mem l bal u v (fun hc => h (List.mem_cons_of_mem m hc))]
    have hm : ¬(m = u) := fun hc => h (hc ▸ List.mem_cons_self m l)
    rw [if_neg hm]

theorem sumBal_setBal : ∀ (l : List UserId) (bal : UserId → Int) (u : UserId) (v : Int),
    l.Nodup → u ∈ l → sumBal l (setBal bal u v) = sumBal l bal - bal u + v
  | [], _, _, _, _, h => absurd h (List.not_mem_nil _)
  | m :: l, bal, u, v, hnd, hu => by
    rw [sumBal_cons, sumBal_cons, setBal_apply]
    by_cases hm : m = u
    · rw [if_pos hm, sumBal_setBal_not_mem l bal u v (hm ▸ (List.nodup_cons.mp hnd).1),
        hm]
      omega
    · have h : u ∈ l := (List.mem_cons.mp hu).resolve_left (fun hc => hm hc.symm)
      rw [if_neg hm, sumBal_setBal l bal u v (List.nodup_cons.mp hnd).2 h]
      omega

theorem sumBal_applyDeltas : ∀ (pairs : List (UserId × Int)) (l : List UserId)
    (bal : UserId → Int), l.Nodup → (∀ p ∈ pairs, p.1 ∈ l) →
    sumBal l (applyDeltas bal pairs) = sumBal l bal + (pairs.map Prod.snd).sum
  | [], _, _, _, _ => by simp [applyDeltas]
  | (a, d) :: rest, l, bal, hnd, hmem => by
    rw [applyDeltas, sumBal_applyDeltas rest l _ hnd
      (fun p hp => hmem p (List.mem_cons_of_mem _ hp))]
    rw [sumBal_setBal l bal a (bal a + d) hnd (hmem (a, d) (List.mem_cons_self _ _))]
    simp
    omega

/-! ### Except helpers -/

theorem exceptOk_true_iff {ε α : Type} (x : Except ε α) :
    exceptOk x = true ↔ ∃ v, x = .ok v := by
  cases x <;> simp [exceptOk]

theorem exceptOk_false_iff {ε α : Type} (x : Except ε α) :
    exceptOk x = false ↔ ∃ err, x = .error err := by
  cases x <;> simp [exceptOk]

/-! ### Lemmas about per-entry validation -/

theorem toCents_ok_isFinite {a : JsNum} {c : Int} (h : toCents a = .ok c) :
    a.isFinite = true := by
  cases a <;> simp_all [toCents, JsNum.isFinite]

theorem toCents_error_eq {a : JsNum} {err : DebtError} (h : toCents a = .error err) :
    err = .invalidAmount a ∧ a.isFinite = false := by
  cases a with
  | fin q => simp [toCents] at h
  | nan => exact ⟨(Except.error.inj h).symm, rfl⟩
  | inf => exact ⟨(Except.error.inj h).symm, rfl⟩
  | negInf => exact ⟨(Except.error.inj h).symm, rfl⟩

theorem checkPayer_ok {members : List UserId} {eid : String} {p : ExpensePayer} {c : Int}
    (h : checkPayer members eid p = .ok c) :
    p.user_id ∈ members ∧ p.amount_paid.ltZero = false ∧ p.amount_paid.isFinite = true := by
  unfold checkPayer at h
  by_cases h1 : p.user_id ∉ members
  · rw [if_pos h1] at h; cases h
  · rw [if_neg h1] at h
    by_cases h2 : p.amount_paid.ltZero = true
    · rw [if_pos h2] at h; cases h
    · rw [if_neg h2] at h
      exact ⟨not_not.mp h1, Bool.not_eq_true _ ▸ h2, toCents_ok_isFinite h⟩

theorem checkPayer_error {members : List UserId} {eid : String} {p : ExpensePayer}
    {err : DebtError} (h : checkPayer members eid p = .error err) :
    err = .payerNotMember eid p.user_id ∨ err = .payerNegative eid p.user_id ∨
      (err = .invalidAmount p.amount_paid ∧ p.amount_paid.isFinite = false) := by
  unfold checkPayer at h
  by_cases h1 : p.user_id ∉ members
  · rw [if_pos h1] at h
    exact Or.inl (Except.error.inj h).symm
  · rw [if_neg h1] at h
    by_cases h2 : p.amount_paid.ltZero = true
    · rw [if_pos h2] at h
      exact Or.inr (Or.inl (Except.error.inj h).symm)
    · rw [if_neg h2] at h
      exact Or.inr (Or.inr (toCents_error_eq h))

theorem checkShare_ok {members : List UserId} {eid : String} {s : ExpenseShare} {c : Int}
    (h : checkShare members eid s = .ok c) :
    s.user_id ∈ members ∧ s.amount_owed.ltZero = false ∧ s.amount_owed.isFinite = true := by
  unfold checkShare at h
  by_cases h1 : s.user_id ∉ members
  · rw [if_pos h1] at h; cases h
  · rw [if_neg h1] at h
    by_cases h2 : s.amount_owed.ltZero = true
    · rw [if_pos h2] at h; cases h
    · rw [if_neg h2] at h
      exact ⟨not_not.mp h1, Bool.not_eq_true _ ▸ h2, toCents_ok_isFinite h⟩

theorem checkShare_error {members : List UserId} {eid : String} {s : ExpenseShare}
    {err : DebtError} (h : checkShare members eid s = .error err) :
    err = .shareNotMember eid s.user_id ∨ err = .shareNegative eid s.user_id ∨
      (err = .invalidAmount s.amount_owed ∧ s.amount_owed.isFinite = false) := by
  unfold checkShare at h
  by_cases h1 : s.user_id ∉ members
  · rw [if_pos h1] at h
    exact Or.inl (Except.error.inj h).symm
  · rw [if_neg h1] at h
    by_cases h2 : s.amount_owed.ltZero = true
    · rw [if_pos h2] at h
      exact Or.inr (Or.inl (Except.error.inj h).symm)
    · rw [if_neg h2] at h
      exact Or.inr (Or.inr (toCents_error_eq h))

theorem checkPayers_ok {members : List UserId} {eid : String} :
    ∀ {ps : List ExpensePayer} {cs : List Int}, checkPayers members eid ps = .ok cs →
      cs.length = ps.length ∧ ∀ p ∈ ps, ∃ c, checkPayer members eid p = .ok c := by
  intro ps
  induction ps with
  | nil =>
    intro cs h
    cases h
    exact ⟨rfl, by simp⟩
  | cons p rest ih =>
    intro cs h
    unfold checkPayers at h
    cases hp : checkPayer members eid p with
    | error err => rw [hp] at h; cases h
    | ok c =>
      rw [hp] at h
      cases hr : checkPayers members eid rest with
      | error err => rw [hr] at h; cases h
      | ok cs' =>
        rw [hr] at h
        cases h
        obtain ⟨hlen, hall⟩ := ih hr
        refine ⟨by simp [hlen], ?_⟩
        intro q hq
        rcases List.mem_cons.mp hq with rfl | hq
        · exact ⟨c, hp⟩
        · exact hall q hq

theorem checkPayers_error {members : List UserId} {eid : String} :
    ∀ {ps : List ExpensePayer} {err : DebtError}, checkPayers members eid ps = .error err →
      ∃ p ∈ ps, checkPayer members eid p = .error err := by
  intro ps
  induction ps with
  | nil => intro err h; cases h
  | cons p rest ih =>
    intro err h
    unfold checkPayers at h
    cases hp : checkPayer members eid p with
    | error e => rw [hp] at h; cases h; exact ⟨p, List.mem_cons_self _ _, hp⟩
    | ok c =>
      rw [hp] at h
      cases hr : checkPayers members eid rest with
      | error e =>
        rw [hr] at h
        cases h
        obtain ⟨q, hq, hqe⟩ := ih hr
        exact ⟨q, List.mem_cons_of_mem _ hq, hqe⟩
      | ok cs' => rw [hr] at h; cases h

theorem checkPayers_error_of_mem {members : List UserId} {eid : String} :
    ∀ {ps : List ExpensePayer} {p : ExpensePayer} {e : DebtError}, p ∈ ps →
      checkPayer members eid p = .error e →
      ∃ err, checkPayers members eid ps = .error err := by
  intro ps
  induction ps with
  | nil => intro p e hp; cases hp
  | cons q rest ih =>
    intro p e hp he
    unfold checkPayers
    cases hq : checkPayer members eid q with
    | error e' => exact ⟨e', rfl⟩
    | ok c =>
      rcases List.mem_cons.mp hp with rfl | hp
      · rw [hq] at he; cases he
      · obtain ⟨err, herr⟩ := ih hp he
        rw [herr]
        exact ⟨err, rfl⟩

theorem checkShares_ok {members : List UserId} {eid : String} :
    ∀ {ss : List ExpenseShare} {cs : List Int}, checkShares members eid ss = .ok cs →
      cs.length = ss.length ∧ ∀ s ∈ ss, ∃ c, checkShare members eid s = .ok c := by
  intro ss
  induction ss with
  | nil =>
    intro cs h
    cases h
    exact ⟨rfl, by simp⟩
  | cons s rest ih =>
    intro cs h
    unfold checkShares at h
    cases hp : checkShare members eid s with
    | error err => rw [hp] at h; cases h
    | ok c =>
      rw [hp] at h
      cases hr : checkShares members eid rest with
      | error err => rw [hr] at h; cases h
      | ok cs' =>
        rw [hr] at h
        cases h
        obtain ⟨hlen, hall⟩ := ih hr
        refine ⟨by simp [hlen], ?_⟩
        intro q hq
        rcases List.mem_cons.mp hq with rfl | hq
        · exact ⟨c, hp⟩
        · exact hall q hq

theorem checkShares_error {members : List UserId} {eid : String} :
    ∀ {ss : List ExpenseShare} {err : DebtError}, checkShares members eid ss = .error err →
      ∃ s ∈ ss, checkShare members eid s = .error err := by
  intro ss
  induction ss with
  | nil => intro err h; cases h
  | cons s rest ih =>
    intro err h
    unfold checkShares at h
    cases hp : checkShare members eid s with
    | error e => rw [hp] at h; cases h; exact ⟨s, List.mem_cons_self _ _, hp⟩
    | ok c =>
      rw [hp] at h
      cases hr : checkShares members eid rest with
      | error e =>
        rw [hr] at h
        cases h
        obtain ⟨q, hq, hqe⟩ := ih hr
        exact ⟨q, List.mem_cons_of_mem _ hq, hqe⟩
      | ok cs' => rw [hr] at h; cases h

theorem checkShares_error_of_mem {members : List UserId} {eid : String} :
    ∀ {ss : List ExpenseShare} {s : ExpenseShare} {e : DebtError}, s ∈ ss →
      checkShare members eid s = .error e →
      ∃ err, checkShares members eid ss = .error err := by
  intro ss
  induction ss with
  | nil => intro s e hs; cases hs
  | cons q rest ih =>
    intro s e hs he
    unfold checkShares
    cases hq : checkShare members eid q with
    | error e' => exact ⟨e', rfl⟩
    | ok c =>
      rcases List.mem_cons.mp hs with rfl | hs
      · rw [hq] at he; cases he
      · obtain ⟨err, herr⟩ := ih hs he
        rw [herr]
        exact ⟨err, rfl⟩

/-! ### Sum of a list after a `set` -/

theorem sum_set_getD : ∀ (l : List Int) (i : Nat), i < l.length → ∀ v : Int,
    (l.set i v).sum = l.sum - l.getD i 0 + v
  | [], i, h, _ => absurd h (by simp)
  | a :: l, 0, _, v => by
    simp [List.set, List.getD_cons_zero]
    omega
  | a :: l, i + 1, h, v => by
    have hi : i < l.length := by simpa using h
    simp only [List.set, List.sum_cons, List.getD_cons_succ]
    rw [sum_set_getD l i hi v]
    omega

/-! ### The best-share scan -/

theorem bestShareIndex_foldl_spec (sc : List Int) :
    ∀ n : Nat, n ≠ 0 →
      ((List.range n).foldl
          (fun best idx => if sc.getD best 0 < sc.getD idx 0 then idx else best) 0 < n ∧
        (∀ k < n, sc.getD k 0 ≤ sc.getD
          ((List.range n).foldl
            (fun best idx => if sc.getD best 0 < sc.getD idx 0 then idx else best) 0) 0) ∧
        (∀ k < (List.range n).foldl
            (fun best idx => if sc.getD best 0 < sc.getD idx 0 then idx else best) 0,
          sc.getD k 0 < sc.getD
            ((List.range n).foldl
              (fun best idx => if sc.getD best 0 < sc.getD idx 0 then idx else best) 0) 0)) := by
  intro n
  induction n with
  | zero => intro h; exact absurd rfl h
  | succ m ih =>
    intro _
    by_cases hm : m = 0
    · subst hm
      simp only [List.range_succ, List.range_zero, List.nil_append, List.foldl_cons,
        List.foldl_nil, lt_self_iff_false, if_false]
      refine ⟨Nat.zero_lt_one, ?_, ?_⟩
      · intro k hk
        interval_cases k
        exact le_refl _
      · intro k hk
        exact absurd hk (Nat.not_lt_zero k)
    · obtain ⟨hblt, hmax, hstrict⟩ := ih hm
      rw [List.range_succ, List.foldl_append, List.foldl_cons, List.foldl_nil] at *
      set b := (List.range m).foldl
        (fun best idx => if sc.getD best 0 < sc.getD idx 0 then idx else best) 0 with hb
      by_cases hcmp : sc.getD b 0 < sc.getD m 0
      · rw [if_pos hcmp]
        refine ⟨Nat.lt_succ_self m, ?_, ?_⟩
        · intro k hk
          rcases Nat.lt_succ_iff_lt_or_eq.mp hk with hk | rfl
          · exact le_of_lt (lt_of_le_of_lt (hmax k hk) hcmp)
          · exact le_refl _
        · intro k hk
          exact lt_of_le_of_lt (hmax k hk) hcmp
      · rw [if_neg hcmp]
        refine ⟨Nat.lt_succ_of_lt hblt, ?_, hstrict⟩
        intro k hk
        rcases Nat.lt_succ_iff_lt_or_eq.mp hk with hk | rfl
        · exact hmax k hk
        · exact le_of_not_lt hcmp

theorem bestShareIndex_spec (sc : List Int) (hne : sc ≠ []) :
    bestShareIndex sc < sc.length ∧
      (∀ k < sc.length, sc.getD k 0 ≤ sc.getD (bestShareIndex sc) 0) ∧
      (∀ k < bestShareIndex sc, sc.getD k 0 < sc.getD (bestShareIndex sc) 0) := by
  have hlen : sc.length ≠ 0 := fun h => hne (List.eq_nil_of_length_eq_zero h)
  exact bestShareIndex_foldl_spec sc sc.length hlen

/-! ### Reconciliation -/

theorem reconcileShares_ok {eid : String} {tp : Int} {sc sc' : List Int}
    (hne : sc ≠ []) (h : reconcileShares eid tp sc = .ok sc') :
    sc'.sum = tp ∧ sc'.length = sc.length := by
  unfold reconcileShares at h
  by_cases hd : tp - sc.sum = 0
  · rw [if_pos hd] at h
    cases h
    exact ⟨by omega, rfl⟩
  · rw [if_neg hd] at h
    by_cases hadj : sc.getD (bestShareIndex sc) 0 + (tp - sc.sum) < 0
    · rw [if_pos hadj] at h; cases h
    · rw [if_neg hadj] at h
      cases h
      obtain ⟨hblt, _, _⟩ := bestShareIndex_spec sc hne
      constructor
      · rw [sum_set_getD sc (bestShareIndex sc) hblt]
        omega
      · exact List.length_set sc _ _

theorem reconcileShares_error {eid : String} {tp : Int} {sc : List Int} {err : DebtError}
    (h : reconcileShares eid tp sc = .error err) : err = .unbalanceable eid (tp - sc.sum) := by
  unfold reconcileShares at h
  by_cases hd : tp - sc.sum = 0
  · rw [if_pos hd] at h; cases h
  · rw [if_neg hd] at h
    by_cases hadj : sc.getD (bestShareIndex sc) 0 + (tp - sc.sum) < 0
    · rw [if_pos hadj] at h
      exact (Except.error.inj h).symm
    · rw [if_neg hadj] at h; cases h

theorem sum_map_neg : ∀ (l : List Int), (l.map (fun c => -c)).sum = -l.sum
  | [] => by simp
  | a :: l => by
    simp only [List.map_cons, List.sum_cons, sum_map_neg l]
    omega

/-! ### Per-expense checks -/

theorem checkExpense_ok {members : List UserId} {e : ExpenseInput} {pc sc : List Int}
    (h : checkExpense members e = .ok (pc, sc)) :
    e.payers ≠ [] ∧ e.shares ≠ [] ∧
      pc.length = e.payers.length ∧ sc.length = e.shares.length ∧
      (∀ p ∈ e.payers, p.user_id ∈ members) ∧ (∀ s ∈ e.shares, s.user_id ∈ members) ∧
      sc.sum = pc.sum := by
  unfold checkExpense at h
  by_cases hp0 : e.payers = []
  · rw [if_pos hp0] at h; cases h
  · rw [if_neg hp0] at h
    by_cases hs0 : e.shares = []
    · rw [if_pos hs0] at h; cases h
    · rw [if_neg hs0] at h
      split at h
      · cases h
      · rename_i pc0 hcp
        split at h
        · cases h
        · rename_i sc0 hcs
          split at h
          · cases h
          · rename_i sc1 hrec
            cases h
            obtain ⟨hlp, hallp⟩ := checkPayers_ok hcp
            obtain ⟨hls, halls⟩ := checkShares_ok hcs
            have hsc0ne : sc0 ≠ [] := by
              intro hnil
              rw [hnil] at hls
              exact hs0 (List.eq_nil_of_length_eq_zero hls.symm)
            obtain ⟨hsum, hlen⟩ := reconcileShares_ok hsc0ne hrec
            refine ⟨hp0, hs0, hlp, by rw [hlen, hls], ?_, ?_, hsum⟩
            · intro p hp
              obtain ⟨c, hc⟩ := hallp p hp
              exact (checkPayer_ok hc).1
            · intro s hs
              obtain ⟨c, hc⟩ := halls s hs
              exact (checkShare_ok hc).1

theorem checkExpense_error {members : List UserId} {e : ExpenseInput} {err : DebtError}
    (h : checkExpense members e = .error err) :
    DebtError.expenseId err = some e.id ∨
      (∃ a, err = .invalidAmount a ∧ a.isFinite = false ∧
        ((∃ p ∈ e.payers, p.amount_paid = a) ∨ (∃ s ∈ e.shares, s.amount_owed = a))) := by
  unfold checkExpense at h
  by_cases hp0 : e.payers = []
  · rw [if_pos hp0] at h
    cases h
    exact Or.inl rfl
  · rw [if_neg hp0] at h
    by_cases hs0 : e.shares = []
    · rw [if_pos hs0] at h
      cases h
      exact Or.inl rfl
    · rw [if_neg hs0] at h
      split at h
      · rename_i e1 hcp
        cases h
        obtain ⟨p, hp, hpe⟩ := checkPayers_error hcp
        rcases checkPayer_error hpe with h1 | h1 | ⟨h1, h2⟩
        · subst h1; exact Or.inl rfl
        · subst h1; exact Or.inl rfl
        · subst h1
          exact Or.inr ⟨p.amount_paid, rfl, h2, Or.inl ⟨p, hp, rfl⟩⟩
      · rename_i pc0 hcp
        split at h
        · rename_i e1 hcs
          cases h
          obtain ⟨s, hs, hse⟩ := checkShares_error hcs
          rcases checkShare_error hse with h1 | h1 | ⟨h1, h2⟩
          · subst h1; exact Or.inl rfl
          · subst h1; exact Or.inl rfl
          · subst h1
            exact Or.inr ⟨s.amount_owed, rfl, h2, Or.inr ⟨s, hs, rfl⟩⟩
        · rename_i sc0 hcs
          split at h
          · rename_i e1 hrec
            cases h
            rw [reconcileShares_error hrec]
            exact Or.inl rfl
          · rename_i sc1 hrec
            cases h

theorem processExpense_ok_apply {members : List UserId} {bal bal' : UserId → Int}
    {e : ExpenseInput} (h : processExpense members bal e = .ok bal') :
    ∀ u, bal' u = bal u + expenseDelta members e u := by
  intro u
  unfold processExpense at h
  cases hc : checkExpense members e with
  | error err => rw [hc] at h; cases h
  | ok pr =>
    obtain ⟨pc, sc⟩ := pr
    rw [hc] at h
    cases h
    unfold expenseDelta
    rw [hc]
    dsimp only
    rw [applyDeltas_apply, applyDeltas_apply]
    omega

theorem processExpense_error_iff {members : List UserId} {bal : UserId → Int}
    {e : ExpenseInput} {err : DebtError} :
    processExpense members bal e = .error err ↔ checkExpense members e = .error err := by
  unfold processExpense
  cases hc : checkExpense members e with
  | error e1 => simp
  | ok pr => simp

theorem processExpense_ok_of_checkExpense {members : List UserId}
    {e : ExpenseInput} {pr : List Int × List Int} (bal : UserId → Int)
    (h : checkExpense members e = .ok pr) :
    ∃ bal', processExpense members bal e = .ok bal' := by
  unfold processExpense
  rw [h]
  exact ⟨_, rfl⟩

/-! ### The expense accumulation loop -/

theorem accumulateBalances_ok_of_valid {members : List UserId} :
    ∀ (exps : List ExpenseInput) (bal0 : UserId → Int), validInput exps members →
      ∃ bal, accumulateBalances members exps bal0 = .ok bal ∧
        ∀ u, bal u = bal0 u + (exps.map (fun e => expenseDelta members e u)).sum
  | [], bal0, _ => ⟨bal0, rfl, by simp⟩
  | e :: rest, bal0, hv => by
    have he : exceptOk (checkExpense members e) = true :=
      hv e (List.mem_cons_self _ _)
    obtain ⟨pr, hpr⟩ := (exceptOk_true_iff _).mp he
    obtain ⟨bal1, hbal1⟩ := processExpense_ok_of_checkExpense bal0 hpr
    have hvrest : validInput rest members := fun e2 h2 => hv e2 (List.mem_cons_of_mem _ h2)
    obtain ⟨bal, hacc, hptw⟩ := accumulateBalances_ok_of_valid rest bal1 hvrest
    refine ⟨bal, ?_, ?_⟩
    · unfold accumulateBalances
      rw [hbal1]
      exact hacc
    · intro u
      rw [hptw u, processExpense_ok_apply hbal1 u]
      simp only [List.map_cons, List.sum_cons]
      omega

theorem accumulateBalances_error_src {members : List UserId} :
    ∀ (exps : List ExpenseInput) (bal0 : UserId → Int) (err : DebtError),
      accumulateBalances members exps bal0 = .error err →
      ∃ e ∈ exps, checkExpense members e = .error err
  | [], _, _, h => by cases h
  | e :: rest, bal0, err, h => by
    unfold accumulateBalances at h
    cases hp : processExpense members bal0 e with
    | error e1 =>
      rw [hp] at h
      cases h
      exact ⟨e, List.mem_cons_self _ _, processExpense_error_iff.mp hp⟩
    | ok bal1 =>
      rw [hp] at h
      obtain ⟨e2, he2, hce⟩ := accumulateBalances_error_src rest bal1 err h
      exact ⟨e2, List.mem_cons_of_mem _ he2, hce⟩

theorem accumulateBalances_error_of_invalid {members : List UserId} :
    ∀ (exps : List ExpenseInput) (bal0 : UserId → Int),
      (∃ e ∈ exps, exceptOk (checkExpense members e) = false) →
      ∃ err, accumulateBalances members exps bal0 = .error err
  | [], _, h => by
    obtain ⟨e, he, _⟩ := h
    cases he
  | e :: rest, bal0, h => by
    unfold accumulateBalances
    cases hp : processExpense members bal0 e with
    | error e1 => exact ⟨e1, rfl⟩
    | ok bal1 =>
      obtain ⟨e2, he2, hbad⟩ := h
      rcases List.mem_cons.mp he2 with rfl | he2
      · obtain ⟨err, herr⟩ := (exceptOk_false_iff _).mp hbad
        rw [processExpense_error_iff.mpr herr] at hp
        cases hp
      · obtain ⟨err, herr⟩ := accumulateBalances_error_of_invalid rest bal1 ⟨e2, he2, hbad⟩
        dsimp only
        rw [herr]
        exact ⟨err, rfl⟩

theorem accumulateBalances_sumBal {members : List UserId} (hnd : members.Nodup) :
    ∀ (exps : List ExpenseInput) (bal0 bal : UserId → Int),
      accumulateBalances members exps bal0 = .ok bal →
      sumBal members bal = sumBal members bal0
  | [], bal0, bal, h => by cases h; rfl
  | e :: rest, bal0, bal, h => by
    unfold accumulateBalances at h
    cases hp : processExpense members bal0 e with
    | error e1 => rw [hp] at h; cases h
    | ok bal1 =>
      rw [hp] at h
      rw [accumulateBalances_sumBal hnd rest bal1 bal h]
      unfold processExpense at hp
      cases hc : checkExpense members e with
      | error err => rw [hc] at hp; cases hp
      | ok pr =>
        rw [hc] at hp
        cases hp
        obtain ⟨pc, sc⟩ := pr
        obtain ⟨_, _, hlp, hls, hallp, halls, hsum⟩ := checkExpense_ok hc
        have hplen : (e.payers.map (fun p => p.user_id)).length = pc.length := by
          simp [hlp]
        have hslen : (e.shares.map (fun s => s.user_id)).length = (sc.map (fun c => -c)).length := by
          simp [hls]
        rw [sumBal_applyDeltas _ _ _ hnd, sumBal_applyDeltas _ _ _ hnd]
        · rw [List.map_snd_zip _ _ (le_of_eq hplen.symm),
            List.map_snd_zip _ _ (le_of_eq hslen.symm)]
          rw [sum_map_neg, hsum]
          omega
        · intro p hp
          obtain ⟨hp1, _⟩ := List.of_mem_zip hp
          obtain ⟨q, hq, hq2⟩ := List.mem_map.mp hp1
          rw [← hq2]
          exact hallp q hq
        · intro p hp
          obtain ⟨hp1, _⟩ := List.of_mem_zip hp
          obtain ⟨q, hq, hq2⟩ := List.mem_map.mp hp1
          rw [← hq2]
          exact halls q hq

/-! ### centsOf helpers -/

theorem centsOf_nil (u : UserId) : centsOf [] u = 0 := rfl

theorem centsOf_cons (e : BalanceCentsEntry) (l : List BalanceCentsEntry) (u : UserId) :
    centsOf (e :: l) u = (if e.user_id = u then e.cents else 0) + centsOf l u := by
  simp [centsOf]

theorem centsOf_append (l1 l2 : List BalanceCentsEntry) (u : UserId) :
    centsOf (l1 ++ l2) u = centsOf l1 u + centsOf l2 u := by
  simp [centsOf]

theorem centsOf_eq_zero {l : List BalanceCentsEntry} {u : UserId}
    (h : ∀ e ∈ l, e.user_id ≠ u) : centsOf l u = 0 := by
  induction l with
  | nil => rfl
  | cons e l ih =>
    rw [centsOf_cons, if_neg (h e (List.mem_cons_self _ _)),
      ih (fun e2 h2 => h e2 (List.mem_cons_of_mem _ h2))]
    omega

/-! ### Classification lemmas -/

theorem classifyMembers_netSum (bal : UserId → Int) :
    ∀ members : List UserId, (classifyMembers bal members).netSumCents = sumBal members bal
  | [] => rfl
  | m :: rest => by
    dsimp only [classifyMembers]
    rw [sumBal_cons, classifyMembers_netSum bal rest]

theorem classifyMembers_creditorCents_mem (bal : UserId → Int) :
    ∀ members : List UserId, ∀ e ∈ (classifyMembers bal members).creditorCents,
      e.user_id ∈ members ∧ e.cents = bal e.user_id ∧ 0 < e.cents
  | [] => by intro e he; cases he
  | m :: rest => by
    intro e he
    dsimp only [classifyMembers] at he
    rcases List.mem_append.mp he with h1 | h1
    · by_cases hpos : 0 < bal m
      · rw [if_pos hpos] at h1
        rcases List.mem_singleton.mp h1 with rfl
        exact ⟨List.mem_cons_self _ _, rfl, hpos⟩
      · rw [if_neg hpos] at h1
        cases h1
    · obtain ⟨hm, hc, hp⟩ := classifyMembers_creditorCents_mem bal rest e h1
      exact ⟨List.mem_cons_of_mem _ hm, hc, hp⟩

theorem classifyMembers_debtorCents_mem (bal : UserId → Int) :
    ∀ members : List UserId, ∀ e ∈ (classifyMembers bal members).debtorCents,
      e.user_id ∈ members ∧ e.cents = -(bal e.user_id) ∧ 0 < e.cents
  | [] => by intro e he; cases he
  | m :: rest => by
    intro e he
    dsimp only [classifyMembers] at he
    rcases List.mem_append.mp he with h1 | h1
    · by_cases hneg : bal m < 0
      · rw [if_pos hneg] at h1
        rcases List.mem_singleton.mp h1 with rfl
        refine ⟨List.mem_cons_self _ _, ?_, ?_⟩
        · dsimp only
          rw [abs_of_neg hneg]
        · dsimp only
          rw [abs_of_neg hneg]
          omega
      · rw [if_neg hneg] at h1
        cases h1
    · obtain ⟨hm, hc, hp⟩ := classifyMembers_debtorCents_mem bal rest e h1
      exact ⟨List.mem_cons_of_mem _ hm, hc, hp⟩

theorem classifyMembers_centsOf_not_mem (bal : UserId → Int) (members : List UserId)
    {u : UserId} (hu : u ∉ members) :
    centsOf (classifyMembers bal members).creditorCents u = 0 ∧
      centsOf (classifyMembers bal members).debtorCents u = 0 := by
  constructor
  · exact centsOf_eq_zero (fun e he hc =>
      hu (hc ▸ (classifyMembers_creditorCents_mem bal members e he).1))
  · exact centsOf_eq_zero (fun e he hc =>
      hu (hc ▸ (classifyMembers_debtorCents_mem bal members e he).1))

theorem classifyMembers_centsOf_mem (bal : UserId → Int) :
    ∀ members : List UserId, members.Nodup → ∀ m ∈ members,
      centsOf (classifyMembers bal members).creditorCents m = max (bal m) 0 ∧
        centsOf (classifyMembers bal members).debtorCents m = max (-(bal m)) 0
  | [] => by intro _ m hm; cases hm
  | m' :: rest => by
    intro hnd m hm
    dsimp only [classifyMembers]
    rw [centsOf_append, centsOf_append]
    rcases List.mem_cons.mp hm with rfl | hmr
    · have hrest : m ∉ rest := (List.nodup_cons.mp hnd).1
      obtain ⟨hc0, hd0⟩ := classifyMembers_centsOf_not_mem bal rest hrest
      rw [hc0, hd0]
      constructor
      · by_cases hpos : 0 < bal m
        · rw [if_pos hpos, centsOf_cons, centsOf_nil, if_pos rfl]
          dsimp only
          omega
        · rw [if_neg hpos, centsOf_nil]
          omega
      · by_cases hneg : bal m < 0
        · rw [if_pos hneg, centsOf_cons, centsOf_nil, if_pos rfl]
          dsimp only
          rw [abs_of_neg hneg]
          omega
        · rw [if_neg hneg, centsOf_nil]
          omega
    · have hne : m' ≠ m := by
        intro hc
        subst hc
        exact (List.nodup_cons.mp hnd).1 hmr
      obtain ⟨hc, hd⟩ := classifyMembers_centsOf_mem bal rest (List.nodup_cons.mp hnd).2 m hmr
      rw [hc, hd]
      constructor
      · by_cases hpos : 0 < bal m'
        · rw [if_pos hpos, centsOf_cons, centsOf_nil, if_neg hne]
          omega
        · rw [if_neg hpos, centsOf_nil]
          omega
      · by_cases hneg : bal m' < 0
        · rw [if_pos hneg, centsOf_cons, centsOf_nil, if_neg hne]
          omega
        · rw [if_neg hneg, centsOf_nil]
          omega

theorem classifyMembers_netBalances (bal : UserId → Int) :
    ∀ (members : List UserId) (m : UserId), m ∈ members →
      (classifyMembers bal members).netBalances m = fromCents (bal m)
  | [], m, hm => absurd hm (List.not_mem_nil m)
  | m' :: rest, m, hm => by
    dsimp only [classifyMembers, classifyMembers.setBal0]
    by_cases he : m = m'
    · rw [if_pos he, he]
    · rw [if_neg he]
      exact classifyMembers_netBalances bal rest m
        ((List.mem_cons.mp hm).resolve_left he)

theorem classifyMembers_sum_split (bal : UserId → Int) :
    ∀ members : List UserId,
      ((classifyMembers bal members).creditorCents.map (fun e => e.cents)).sum -
        ((classifyMembers bal members).debtorCents.map (fun e => e.cents)).sum =
        (classifyMembers bal members).netSumCents
  | [] => rfl
  | m :: rest => by
    dsimp only [classifyMembers]
    rw [List.map_append, List.sum_append, List.map_append, List.sum_append]
    have ih := classifyMembers_sum_split bal rest
    by_cases hpos : 0 < bal m
    · rw [if_pos hpos, if_neg (by omega : ¬(bal m < 0))]
      simp only [List.map_cons, List.map_nil, List.sum_cons, List.sum_nil]
      omega
    · by_cases hneg : bal m < 0
      · rw [if_neg hpos, if_pos hneg]
        simp only [List.map_cons, List.map_nil, List.sum_cons, List.sum_nil]
        rw [abs_of_neg hneg]
        omega
      · rw [if_neg hpos, if_neg hneg]
        simp only [List.map_nil, List.sum_nil]
        omega

theorem classifyMembers_lengths (bal : UserId → Int) :
    ∀ members : List UserId,
      (classifyMembers bal members).creditors.length =
          (classifyMembers bal members).creditorCents.length ∧
        (classifyMembers bal members).debtors.length =
          (classifyMembers bal members).debtorCents.length
  | [] => ⟨rfl, rfl⟩
  | m :: rest => by
    obtain ⟨ih1, ih2⟩ := classifyMembers_lengths bal rest
    dsimp only [classifyMembers]
    rw [List.length_append, List.length_append, List.length_append, List.length_append]
    constructor
    · by_cases hpos : 0 < bal m
      · rw [if_pos hpos, if_pos hpos]
        simp [ih1]
      · rw [if_neg hpos, if_neg hpos]
        simp [ih1]
    · by_cases hneg : bal m < 0
      · rw [if_pos hneg, if_pos hneg]
        simp [ih2]
      · rw [if_neg hneg, if_neg hneg]
        simp [ih2]

/-! ### Amount bookkeeping helpers -/

theorem fromCents_zero : fromCents 0 = 0 := by
  simp [fromCents]

theorem fromCents_add (a b : Int) : fromCents a + fromCents b = fromCents (a + b) := by
  unfold fromCents
  push_cast
  ring

theorem fromCents_pos {a : Int} (h : 0 < a) : 0 < fromCents a := by
  unfold fromCents
  positivity

theorem sentAmt_nil (u : UserId) : sentAmt [] u = 0 := rfl

theorem sentAmt_cons (tx : SettlementTransaction) (txs : List SettlementTransaction)
    (u : UserId) :
    sentAmt (tx :: txs) u = (if tx.payer_id = u then tx.amount else 0) + sentAmt txs u := by
  simp [sentAmt]

theorem recvAmt_nil (u : UserId) : recvAmt [] u = 0 := rfl

theorem recvAmt_cons (tx : SettlementTransaction) (txs : List SettlementTransaction)
    (u : UserId) :
    recvAmt (tx :: txs) u = (if tx.payee_id = u then tx.amount else 0) + recvAmt txs u := by
  simp [recvAmt]

/-! ### The greedy matching loop -/

theorem greedyLoop_nil_left (fuel : Nat) (cs : List BalanceCentsEntry) :
    greedyLoop fuel [] cs = .ok ([], [], cs) := by
  cases fuel <;> rfl

theorem greedyLoop_nil_right (fuel : Nat) (d : BalanceCentsEntry)
    (ds : List BalanceCentsEntry) :
    greedyLoop fuel (d :: ds) [] = .ok ([], d :: ds, []) := by
  cases fuel <;> rfl

/-- Master invariant of the greedy matching loop: when every remaining entry
is strictly positive and the iteration bound is at least the combined list
length, the loop consumes at least one of the two lists completely, keeps
all remaining entries positive, transfers equal totals from both sides, and
the per-user settled amounts account exactly for the consumed cents. -/
theorem greedyLoop_spec : ∀ (fuel : Nat) (ds cs : List BalanceCentsEntry)
    (txs : List SettlementTransaction) (remD remC : List BalanceCentsEntry),
    greedyLoop fuel ds cs = .ok (txs, remD, remC) →
    (∀ e ∈ ds, 0 < e.cents) → (∀ e ∈ cs, 0 < e.cents) →
    ds.length + cs.length ≤ fuel →
    ((remD = [] ∨ remC = []) ∧
      (∀ e ∈ remD, 0 < e.cents) ∧ (∀ e ∈ remC, 0 < e.cents) ∧
      (remD.map (fun e => e.cents)).sum - (remC.map (fun e => e.cents)).sum =
        (ds.map (fun e => e.cents)).sum - (cs.map (fun e => e.cents)).sum ∧
      (∀ u : UserId, sentAmt txs u = fromCents (centsOf ds u - centsOf remD u) ∧
        recvAmt txs u = fromCents (centsOf cs u - centsOf remC u))) := by
  intro fuel
  induction fuel with
  | zero =>
    intro ds cs txs remD remC h hd hc hlen
    have hds : ds = [] := List.eq_nil_of_length_eq_zero (by omega)
    have hcs : cs = [] := List.eq_nil_of_length_eq_zero (by omega)
    subst hds; subst hcs
    rw [greedyLoop_nil_left] at h
    cases h
    refine ⟨Or.inl rfl, hd, hc, by simp, ?_⟩
    intro u
    exact ⟨by rw [sentAmt_nil, sub_self, fromCents_zero],
      by rw [recvAmt_nil, sub_self, fromCents_zero]⟩
  | succ fuel ih =>
    intro ds cs txs remD remC h hd hc hlen
    cases ds with
    | nil =>
      rw [greedyLoop_nil_left] at h
      cases h
      refine ⟨Or.inl rfl, hd, hc, by simp, ?_⟩
      intro u
      exact ⟨by rw [sentAmt_nil, sub_self, fromCents_zero],
        by rw [recvAmt_nil, sub_self, fromCents_zero]⟩
    | cons d ds =>
      cases cs with
      | nil =>
        rw [greedyLoop_nil_right] at h
        cases h
        refine ⟨Or.inr rfl, hd, hc, by simp, ?_⟩
        intro u
        exact ⟨by rw [sentAmt_nil, sub_self, fromCents_zero],
          by rw [recvAmt_nil, sub_self, fromCents_zero]⟩
      | cons c cs =>
        have hdpos : 0 < d.cents := hd d (List.mem_cons_self _ _)
        have hcpos : 0 < c.cents := hc c (List.mem_cons_self _ _)
        have htpos : 0 < min d.cents c.cents := lt_min hdpos hcpos
        simp only [greedyLoop] at h
        by_cases hself : 0 < min d.cents c.cents ∧ d.user_id = c.user_id
        · rw [if_pos hself] at h
          cases h
        · rw [if_neg hself] at h
          split at h
          · cases h
          · rename_i txs2 remD2 remC2 heq
            rw [if_pos htpos] at h
            rw [List.singleton_append] at h
            cases h
            -- facts about the shortened lists
            have hmincase := min_choice d.cents c.cents
            have hminled : min d.cents c.cents ≤ d.cents := min_le_left _ _
            have hminlec : min d.cents c.cents ≤ c.cents := min_le_right _ _
            have hds1pos : ∀ e ∈ (if d.cents - min d.cents c.cents = 0 then ds
                else { user_id := d.user_id, cents := d.cents - min d.cents c.cents } :: ds),
                0 < e.cents := by
              by_cases hd0 : d.cents - min d.cents c.cents = 0
              · rw [if_pos hd0]
                exact fun e he => hd e (List.mem_cons_of_mem _ he)
              · rw [if_neg hd0]
                intro e he
                rcases List.mem_cons.mp he with rfl | he
                · dsimp only
                  omega
                · exact hd e (List.mem_cons_of_mem _ he)
            have hcs1pos : ∀ e ∈ (if c.cents - min d.cents c.cents = 0 then cs
                else { user_id := c.user_id, cents := c.cents - min d.cents c.cents } :: cs),
                0 < e.cents := by
              by_cases hc0 : c.cents - min d.cents c.cents = 0
              · rw [if_pos hc0]
                exact fun e he => hc e (List.mem_cons_of_mem _ he)
              · rw [if_neg hc0]
                intro e he
                rcases List.mem_cons.mp he with rfl | he
                · dsimp only
                  omega
                · exact hc e (List.mem_cons_of_mem _ he)
            have hlen1 : (if d.cents - min d.cents c.cents = 0 then ds
                  else { user_id := d.user_id, cents := d.cents - min d.cents c.cents } :: ds).length +
                (if c.cents - min d.cents c.cents = 0 then cs
                  else { user_id := c.user_id, cents := c.cents - min d.cents c.cents } :: cs).length ≤
                fuel := by
              by_cases hd0 : d.cents - min d.cents c.cents = 0
              · rw [if_pos hd0]
                by_cases hc0 : c.cents - min d.cents c.cents = 0
                · rw [if_pos hc0]
                  simp only [List.length_cons] at hlen
                  omega
                · rw [if_neg hc0]
                  simp only [List.length_cons] at hlen ⊢
                  omega
              · rw [if_neg hd0]
                have hc0 : c.cents - min d.cents c.cents = 0 := by omega
                rw [if_pos hc0]
                simp only [List.length_cons] at hlen ⊢
                omega
            obtain ⟨hor, hremDpos, hremCpos, hsums, hamts⟩ :=
              ih _ _ _ _ _ heq hds1pos hcs1pos hlen1
            have hcentsD : ∀ u, centsOf (if d.cents - min d.cents c.cents = 0 then ds
                  else { user_id := d.user_id, cents := d.cents - min d.cents c.cents } :: ds) u =
                centsOf (d :: ds) u - (if d.user_id = u then min d.cents c.cents else 0) := by
              intro u
              by_cases hd0 : d.cents - min d.cents c.cents = 0
              · rw [if_pos hd0, centsOf_cons]
                by_cases hdu : d.user_id = u
                · rw [if_pos hdu, if_pos hdu]
                  omega
                · rw [if_neg hdu, if_neg hdu]
                  omega
              · rw [if_neg hd0, centsOf_cons, centsOf_cons]
                dsimp only
                by_cases hdu : d.user_id = u
                · rw [if_pos hdu, if_pos hdu, if_pos hdu]
                  omega
                · rw [if_neg hdu, if_neg hdu, if_neg hdu]
                  omega
            have hcentsC : ∀ u, centsOf (if c.cents - min d.cents c.cents = 0 then cs
                  else { user_id := c.user_id, cents := c.cents - min d.cents c.cents } :: cs) u =
                centsOf (c :: cs) u - (if c.user_id = u then min d.cents c.cents else 0) := by
              intro u
              by_cases hc0 : c.cents - min d.cents c.cents = 0
              · rw [if_pos hc0, centsOf_cons]
                by_cases hcu : c.user_id = u
                · rw [if_pos hcu, if_pos hcu]
                  omega
                · rw [if_neg hcu, if_neg hcu]
                  omega
              · rw [if_neg hc0, centsOf_cons, centsOf_cons]
                dsimp only
                by_cases hcu : c.user_id = u
                · rw [if_pos hcu, if_pos hcu, if_pos hcu]
                  omega
                · rw [if_neg hcu, if_neg hcu, if_neg hcu]
                  omega
            have hsumD : ((if d.cents - min d.cents c.cents = 0 then ds
                  else { user_id := d.user_id, cents := d.cents - min d.cents c.cents } :: ds).map
                    (fun e => e.cents)).sum =
                ((d :: ds).map (fun e => e.cents)).sum - min d.cents c.cents := by
              by_cases hd0 : d.cents - min d.cents c.cents = 0
              · rw [if_pos hd0]
                simp only [List.map_cons, List.sum_cons]
                omega
              · rw [if_neg hd0]
                simp only [List.map_cons, List.sum_cons]
                omega
            have hsumC : ((if c.cents - min d.cents c.cents = 0 then cs
                  else { user_id := c.user_id, cents := c.cents - min d.cents c.cents } :: cs).map
                    (fun e => e.cents)).sum =
                ((c :: cs).map (fun e => e.cents)).sum - min d.cents c.cents := by
              by_cases hc0 : c.cents - min d.cents c.cents = 0
              · rw [if_pos hc0]
                simp only [List.map_cons, List.sum_cons]
                omega
              · rw [if_neg hc0]
                simp only [List.map_cons, List.sum_cons]
                omega
            refine ⟨hor, hremDpos, hremCpos, ?_, ?_⟩
            · rw [hsums, hsumD, hsumC]
              omega
            · intro u
              obtain ⟨hsent, hrecv⟩ := hamts u
              constructor
              · rw [sentAmt_cons, hsent, hcentsD u]
                dsimp only
                by_cases hdu : d.user_id = u
                · rw [if_pos hdu, if_pos hdu, fromCents_add]
                  congr 1
                  omega
                · rw [if_neg hdu, if_neg hdu, zero_add]
                  congr 1
                  omega
              · rw [recvAmt_cons, hrecv, hcentsC u]
                dsimp only
                by_cases hcu : c.user_id = u
                · rw [if_pos hcu, if_pos hcu, fromCents_add]
                  congr 1
                  omega
                · rw [if_neg hcu, if_neg hcu, zero_add]
                  congr 1
                  omega

/-- Without any validity assumption: every transaction emitted by the loop
has a strictly positive amount, distinct payer and payee, a payer drawn
from the debtor entries and a payee drawn from the creditor entries. -/
theorem greedyLoop_txs_mem : ∀ (fuel : Nat) (ds cs : List BalanceCentsEntry)
    (txs : List SettlementTransaction) (remD remC : List BalanceCentsEntry),
    greedyLoop fuel ds cs = .ok (txs, remD, remC) →
    ∀ tx ∈ txs, 0 < tx.amount ∧ tx.payer_id ≠ tx.payee_id ∧
      tx.payer_id ∈ ds.map (fun e => e.user_id) ∧
      tx.payee_id ∈ cs.map (fun e => e.user_id) := by
  intro fuel
  induction fuel with
  | zero =>
    intro ds cs txs remD remC h tx htx
    cases ds with
    | nil =>
      rw [greedyLoop_nil_left] at h
      cases h
      cases htx
    | cons d ds =>
      cases cs with
      | nil =>
        rw [greedyLoop_nil_right] at h
        cases h
        cases htx
      | cons c cs =>
        cases h
        cases htx
  | succ fuel ih =>
    intro ds cs txs remD remC h tx htx
    cases ds with
    | nil =>
      rw [greedyLoop_nil_left] at h
      cases h
      cases htx
    | cons d ds =>
      cases cs with
      | nil =>
        rw [greedyLoop_nil_right] at h
        cases h
        cases htx
      | cons c cs =>
        simp only [greedyLoop] at h
        by_cases hself : 0 < min d.cents c.cents ∧ d.user_id = c.user_id
        · rw [if_pos hself] at h
          cases h
        · rw [if_neg hself] at h
          split at h
          · cases h
          · rename_i txs2 remD2 remC2 heq
            cases h
            rcases List.mem_append.mp htx with h1 | h1
            · by_cases ht0 : 0 < min d.cents c.cents
              · rw [if_pos ht0] at h1
                rcases List.mem_singleton.mp h1 with rfl
                refine ⟨fromCents_pos ht0, ?_, ?_, ?_⟩
                · intro hc
                  exact hself ⟨ht0, hc⟩
                · exact List.mem_map.mpr ⟨d, List.mem_cons_self _ _, rfl⟩
                · exact List.mem_map.mpr ⟨c, List.mem_cons_self _ _, rfl⟩
              · rw [if_neg ht0] at h1
                cases h1
            · obtain ⟨hpos, hne, hpayer, hpayee⟩ := ih _ _ _ _ _ heq tx h1
              refine ⟨hpos, hne, ?_, ?_⟩
              · rcases List.mem_map.mp hpayer with ⟨e, he, hee⟩
                by_cases hd0 : d.cents - min d.cents c.cents = 0
                · rw [if_pos hd0] at he
                  exact List.mem_map.mpr ⟨e, List.mem_cons_of_mem _ he, hee⟩
                · rw [if_neg hd0] at he
                  rcases List.mem_cons.mp he with rfl | he
                  · exact List.mem_map.mpr ⟨d, List.mem_cons_self _ _, hee⟩
                  · exact List.mem_map.mpr ⟨e, List.mem_cons_of_mem _ he, hee⟩
              · rcases List.mem_map.mp hpayee with ⟨e, he, hee⟩
                by_cases hc0 : c.cents - min d.cents c.cents = 0
                · rw [if_pos hc0] at he
                  exact List.mem_map.mpr ⟨e, List.mem_cons_of_mem _ he, hee⟩
                · rw [if_neg hc0] at he
                  rcases List.mem_cons.mp he with rfl | he
                  · exact List.mem_map.mpr ⟨c, List.mem_cons_self _ _, hee⟩
                  · exact List.mem_map.mpr ⟨e, List.mem_cons_of_mem _ he, hee⟩

/-- The loop always succeeds when no user id occurs on both sides. -/
theorem greedyLoop_ok_of_disjoint : ∀ (fuel : Nat) (ds cs : List BalanceCentsEntry),
    (∀ d ∈ ds, ∀ c ∈ cs, d.user_id ≠ c.user_id) →
    ∃ txs remD remC, greedyLoop fuel ds cs = .ok (txs, remD, remC) := by
  intro fuel
  induction fuel with
  | zero =>
    intro ds cs _
    cases ds with
    | nil => exact ⟨_, _, _, greedyLoop_nil_left 0 cs⟩
    | cons d ds =>
      cases cs with
      | nil => exact ⟨_, _, _, greedyLoop_nil_right 0 d ds⟩
      | cons c cs => exact ⟨_, _, _, rfl⟩
  | succ fuel ih =>
    intro ds cs hdisj
    cases ds with
    | nil => exact ⟨_, _, _, greedyLoop_nil_left _ cs⟩
    | cons d ds =>
      cases cs with
      | nil => exact ⟨_, _, _, greedyLoop_nil_right _ d ds⟩
      | cons c cs =>
        have hself : ¬(0 < min d.cents c.cents ∧ d.user_id = c.user_id) := by
          intro hcon
          exact hdisj d (List.mem_cons_self _ _) c (List.mem_cons_self _ _) hcon.2
        have hdisj1 : ∀ x ∈ (if d.cents - min d.cents c.cents = 0 then ds
              else { user_id := d.user_id, cents := d.cents - min d.cents c.cents } :: ds),
            ∀ y ∈ (if c.cents - min d.cents c.cents = 0 then cs
              else { user_id := c.user_id, cents := c.cents - min d.cents c.cents } :: cs),
            x.user_id ≠ y.user_id := by
          intro x hx y hy
          have hx2 : x.user_id = d.user_id ∨ x ∈ ds := by
            by_cases hd0 : d.cents - min d.cents c.cents = 0
            · rw [if_pos hd0] at hx
              exact Or.inr hx
            · rw [if_neg hd0] at hx
              rcases List.mem_cons.mp hx with rfl | hx
              · exact Or.inl rfl
              · exact Or.inr hx
          have hy2 : y.user_id = c.user_id ∨ y ∈ cs := by
            by_cases hc0 : c.cents - min d.cents c.cents = 0
            · rw [if_pos hc0] at hy
              exact Or.inr hy
            · rw [if_neg hc0] at hy
              rcases List.mem_cons.mp hy with rfl | hy
              · exact Or.inl rfl
              · exact Or.inr hy
          rcases hx2 with hx2 | hx2 <;> rcases hy2 with hy2 | hy2
          · rw [hx2, hy2]
            exact hdisj d (List.mem_cons_self _ _) c (List.mem_cons_self _ _)
          · rw [hx2]
            exact hdisj d (List.mem_cons_self _ _) y (List.mem_cons_of_mem _ hy2)
          · rw [hy2]
            exact hdisj x (List.mem_cons_of_mem _ hx2) c (List.mem_cons_self _ _)
          · exact hdisj x (List.mem_cons_of_mem _ hx2) y (List.mem_cons_of_mem _ hy2)
        obtain ⟨txs2, remD2, remC2, heq⟩ := ih _ _ hdisj1
        have hstep : greedyLoop (fuel + 1) (d :: ds) (c :: cs) =
            .ok ((if 0 < min d.cents c.cents then
                [{ payer_id := d.user_id, payee_id := c.user_id,
                   amount := fromCents (min d.cents c.cents) }] else []) ++ txs2,
              remD2, remC2) := by
          simp only [greedyLoop]
          rw [if_neg hself, heq]
        exact ⟨_, _, _, hstep⟩

/-- At most `len debtors + len creditors - 1` transactions are emitted. -/
theorem greedyLoop_length_bound : ∀ (fuel : Nat) (ds cs : List BalanceCentsEntry)
    (txs : List SettlementTransaction) (remD remC : List BalanceCentsEntry),
    greedyLoop fuel ds cs = .ok (txs, remD, remC) →
    txs.length ≤ ds.length + cs.length - 1 := by
  intro fuel
  induction fuel with
  | zero =>
    intro ds cs txs remD remC h
    cases ds with
    | nil =>
      rw [greedyLoop_nil_left] at h
      cases h
      simp
    | cons d ds =>
      cases cs with
      | nil =>
        rw [greedyLoop_nil_right] at h
        cases h
        simp
      | cons c cs =>
        cases h
        simp
  | succ fuel ih =>
    intro ds cs txs remD remC h
    cases ds with
    | nil =>
      rw [greedyLoop_nil_left] at h
      cases h
      simp
    | cons d ds =>
      cases cs with
      | nil =>
        rw [greedyLoop_nil_right] at h
        cases h
        simp
      | cons c cs =>
        simp only [greedyLoop] at h
        by_cases hself : 0 < min d.cents c.cents ∧ d.user_id = c.user_id
        · rw [if_pos hself] at h
          cases h
        · rw [if_neg hself] at h
          split at h
          · cases h
          · rename_i txs2 remD2 remC2 heq
            cases h
            have hrec := ih _ _ _ _ _ heq
            have hmincase := min_choice d.cents c.cents
            have htxlen : ((if 0 < min d.cents c.cents then
                ([{ payer_id := d.user_id, payee_id := c.user_id,
                    amount := fromCents (min d.cents c.cents) }] :
                  List SettlementTransaction) else []) ++ txs2).length ≤
                1 + txs2.length := by
              rw [List.length_append]
              by_cases ht0 : 0 < min d.cents c.cents
              · rw [if_pos ht0]
                simp
              · rw [if_neg ht0]
                simp
            have hlists : (if d.cents - min d.cents c.cents = 0 then ds
                  else { user_id := d.user_id, cents := d.cents - min d.cents c.cents } :: ds).length +
                (if c.cents - min d.cents c.cents = 0 then cs
                  else { user_id := c.user_id, cents := c.cents - min d.cents c.cents } :: cs).length ≤
                ds.length + cs.length + 1 := by
              by_cases hd0 : d.cents - min d.cents c.cents = 0
              · rw [if_pos hd0]
                by_cases hc0 : c.cents - min d.cents c.cents = 0
                · rw [if_pos hc0]
                  omega
                · rw [if_neg hc0]
                  simp only [List.length_cons]
                  omega
              · rw [if_neg hd0]
                have hc0 : c.cents - min d.cents c.cents = 0 := by omega
                rw [if_pos hc0]
                simp only [List.length_cons]
                omega
            simp only [List.length_cons]
            omega

/-! ### Small helpers for the settlement phase -/

theorem sumBal_zero_fun (members : List UserId) : sumBal members (fun _ => 0) = 0 := by
  induction members with
  | nil => rfl
  | cons m rest ih =>
    rw [sumBal_cons, ih]
    omega

theorem centsOf_perm {l1 l2 : List BalanceCentsEntry} (h : l1.Perm l2) (u : UserId) :
    centsOf l1 u = centsOf l2 u :=
  (h.map _).sum_eq

theorem all_zero_of_sum_zero_nonneg : ∀ (l : List Int), (∀ x ∈ l, 0 ≤ x) → l.sum = 0 →
    ∀ x ∈ l, x = 0
  | [], _, _, x, hx => absurd hx (List.not_mem_nil x)
  | a :: l, hpos, hsum, x, hx => by
    rw [List.sum_cons] at hsum
    have hann : 0 ≤ a := hpos a (List.mem_cons_self _ _)
    have hlnn : 0 ≤ l.sum := List.sum_nonneg (fun y hy => hpos y (List.mem_cons_of_mem _ hy))
    rcases List.mem_cons.mp hx with rfl | hx
    · omega
    · exact all_zero_of_sum_zero_nonneg l (fun y hy => hpos y (List.mem_cons_of_mem _ hy))
        (by omega) x hx

theorem eq_nil_of_sum_zero_pos : ∀ (l : List BalanceCentsEntry),
    (∀ e ∈ l, 0 < e.cents) → (l.map (fun e => e.cents)).sum = 0 → l = []
  | [], _, _ => rfl
  | e :: l, hpos, hsum => by
    exfalso
    rw [List.map_cons, List.sum_cons] at hsum
    have h1 : 0 < e.cents := hpos e (List.mem_cons_self _ _)
    have h2 : 0 ≤ (l.map (fun e => e.cents)).sum :=
      List.sum_nonneg (by
        intro y hy
        obtain ⟨e2, he2, rfl⟩ := List.mem_map.mp hy
        exact le_of_lt (hpos e2 (List.mem_cons_of_mem _ he2)))
    omega

theorem fromCents_sub (a b : Int) : fromCents a - fromCents b = fromCents (a - b) := by
  unfold fromCents
  push_cast
  ring

/-! ### Case analysis of the settlement phase -/

theorem settlePhase_ok_cases {members : List UserId} {bal : UserId → Int}
    {out : DebtCalculationOutput} (h : settlePhase members bal = .ok out) :
    out.netBalances = (classifyMembers bal members).netBalances ∧
      out.creditors = (classifyMembers bal members).creditors ∧
      out.debtors = (classifyMembers bal members).debtors ∧
      (out.settlements = [] ∨
        ∃ remD remC,
          greedyLoop
            ((List.insertionSort sortByCentsDesc (classifyMembers bal members).debtorCents).length +
              (List.insertionSort sortByCentsDesc (classifyMembers bal members).creditorCents).length)
            (List.insertionSort sortByCentsDesc (classifyMembers bal members).debtorCents)
            (List.insertionSort sortByCentsDesc (classifyMembers bal members).creditorCents) =
            .ok (out.settlements, remD, remC)) := by
  unfold settlePhase at h
  by_cases hnz : (classifyMembers bal members).netSumCents ≠ 0
  · rw [if_pos hnz] at h
    cases h
  · rw [if_neg hnz] at h
    by_cases hempty : List.insertionSort sortByCentsDesc (classifyMembers bal members).debtorCents = [] ∨
        List.insertionSort sortByCentsDesc (classifyMembers bal members).creditorCents = []
    · rw [if_pos hempty] at h
      cases h
      exact ⟨rfl, rfl, rfl, Or.inl rfl⟩
    · rw [if_neg hempty] at h
      split at h
      · cases h
      · rename_i txs remD remC heq
        by_cases hrem : (remD.map (fun e => e.cents)).sum ≠ 0 ∨
            (remC.map (fun e => e.cents)).sum ≠ 0
        · rw [if_pos hrem] at h
          cases h
        · rw [if_neg hrem] at h
          cases h
          exact ⟨rfl, rfl, rfl, Or.inr ⟨remD, remC, heq⟩⟩

theorem settlePhase_error_cases {members : List UserId} {bal : UserId → Int}
    {err : DebtError} (h : settlePhase members bal = .error err) :
    (∃ s, err = .netNotZero s) ∨ err = .unsettled := by
  unfold settlePhase at h
  by_cases hnz : (classifyMembers bal members).netSumCents ≠ 0
  · rw [if_pos hnz] at h
    exact Or.inl ⟨_, (Except.error.inj h).symm⟩
  · rw [if_neg hnz] at h
    by_cases hempty : List.insertionSort sortByCentsDesc (classifyMembers bal members).debtorCents = [] ∨
        List.insertionSort sortByCentsDesc (classifyMembers bal members).creditorCents = []
    · rw [if_pos hempty] at h
      cases h
    · rw [if_neg hempty] at h
      split at h
      · rename_i e1 heq
        exfalso
        have hdisj : ∀ d ∈ List.insertionSort sortByCentsDesc (classifyMembers bal members).debtorCents,
            ∀ c ∈ List.insertionSort sortByCentsDesc (classifyMembers bal members).creditorCents,
            d.user_id ≠ c.user_id := by
          intro d hd c hc
          have hd2 := (List.perm_insertionSort sortByCentsDesc _).mem_iff.mp hd
          have hc2 := (List.perm_insertionSort sortByCentsDesc _).mem_iff.mp hc
          obtain ⟨_, hdc, hdp⟩ := classifyMembers_debtorCents_mem bal members d hd2
          obtain ⟨_, hcc, hcp⟩ := classifyMembers_creditorCents_mem bal members c hc2
          intro hcon
          rw [hcon] at hdc
          omega
        obtain ⟨txs, remD, remC, hok⟩ := greedyLoop_ok_of_disjoint _ _ _ hdisj
        rw [hok] at heq
        cases heq
      · rename_i txs remD remC heq
        by_cases hrem : (remD.map (fun e => e.cents)).sum ≠ 0 ∨
            (remC.map (fun e => e.cents)).sum ≠ 0
        · rw [if_pos hrem] at h
          exact Or.inr (Except.error.inj h).symm
        · rw [if_neg hrem] at h
          cases h

theorem calculateTripDebts_error_cases {expenses : List ExpenseInput}
    {members : List UserId} {err : DebtError}
    (h : calculateTripDebts expenses members = .error err) :
    (∃ e ∈ expenses, checkExpense members e = .error err) ∨
      (∃ s, err = .netNotZero s) ∨ err = .unsettled := by
  unfold calculateTripDebts at h
  cases hacc : accumulateBalances members expenses (fun _ => 0) with
  | error e1 =>
    rw [hacc] at h
    cases h
    exact Or.inl (accumulateBalances_error_src expenses _ _ hacc)
  | ok bal =>
    rw [hacc] at h
    exact Or.inr (settlePhase_error_cases h)

theorem calculateTripDebts_ok_settle {expenses : List ExpenseInput}
    {members : List UserId} {out : DebtCalculationOutput}
    (h : calculateTripDebts expenses members = .ok out) :
    ∃ bal, accumulateBalances members expenses (fun _ => 0) = .ok bal ∧
      settlePhase members bal = .ok out := by
  unfold calculateTripDebts at h
  cases hacc : accumulateBalances members expenses (fun _ => 0) with
  | error e1 => rw [hacc] at h; cases h
  | ok bal =>
    rw [hacc] at h
    exact ⟨bal, rfl, h⟩

/-- Under distinct members and a zero grand total, the settlement phase
succeeds and replaying its transactions drives every member to zero. -/
theorem settlePhase_replay (members : List UserId) (bal : UserId → Int)
    (hnd : members.Nodup) (hsum : sumBal members bal = 0) :
    ∃ out, settlePhase members bal = .ok out ∧
      out.netBalances = (classifyMembers bal members).netBalances ∧
      ∀ m ∈ members, replayBalance out.netBalances out.settlements m = 0 := by
  have hnet : (classifyMembers bal members).netSumCents = 0 := by
    rw [classifyMembers_netSum]
    exact hsum
  have hpermD := List.perm_insertionSort sortByCentsDesc (classifyMembers bal members).debtorCents
  have hpermC := List.perm_insertionSort sortByCentsDesc (classifyMembers bal members).creditorCents
  have hDpos : ∀ e ∈ List.insertionSort sortByCentsDesc (classifyMembers bal members).debtorCents,
      0 < e.cents := fun e he =>
    (classifyMembers_debtorCents_mem bal members e (hpermD.mem_iff.mp he)).2.2
  have hCpos : ∀ e ∈ List.insertionSort sortByCentsDesc (classifyMembers bal members).creditorCents,
      0 < e.cents := fun e he =>
    (classifyMembers_creditorCents_mem bal members e (hpermC.mem_iff.mp he)).2.2
  have hdisj : ∀ d ∈ List.insertionSort sortByCentsDesc (classifyMembers bal members).debtorCents,
      ∀ c ∈ List.insertionSort sortByCentsDesc (classifyMembers bal members).creditorCents,
      d.user_id ≠ c.user_id := by
    intro d hd c hc
    obtain ⟨_, hdc, hdp⟩ := classifyMembers_debtorCents_mem bal members d (hpermD.mem_iff.mp hd)
    obtain ⟨_, hcc, hcp⟩ := classifyMembers_creditorCents_mem bal members c (hpermC.mem_iff.mp hc)
    intro hcon
    rw [hcon] at hdc
    omega
  have hsumeq : ((List.insertionSort sortByCentsDesc
        (classifyMembers bal members).debtorCents).map (fun e => e.cents)).sum =
      ((List.insertionSort sortByCentsDesc
        (classifyMembers bal members).creditorCents).map (fun e => e.cents)).sum := by
    rw [(hpermD.map (fun e => e.cents)).sum_eq, (hpermC.map (fun e => e.cents)).sum_eq]
    have := classifyMembers_sum_split bal members
    omega
  unfold settlePhase
  rw [if_neg (fun hc => hc hnet)]
  by_cases hempty : List.insertionSort sortByCentsDesc (classifyMembers bal members).debtorCents = [] ∨
      List.insertionSort sortByCentsDesc (classifyMembers bal members).creditorCents = []
  · rw [if_pos hempty]
    refine ⟨_, rfl, rfl, ?_⟩
    have hallzero : ∀ m ∈ members, bal m = 0 := by
      have hDnil : (classifyMembers bal members).debtorCents = [] ∧
          (classifyMembers bal members).creditorCents = [] := by
        rcases hempty with hcase | hcase
        · have hdnil : (classifyMembers bal members).debtorCents = [] :=
            (hcase ▸ hpermD).symm.eq_nil
          constructor
          · exact hdnil
          · have hCsum : ((classifyMembers bal members).creditorCents.map
                (fun e => e.cents)).sum = 0 := by
              have := classifyMembers_sum_split bal members
              rw [hdnil] at this
              simp only [List.map_nil, List.sum_nil] at this
              omega
            exact eq_nil_of_sum_zero_pos _
              (fun e he => (classifyMembers_creditorCents_mem bal members e he).2.2) hCsum
        · have hcnil : (classifyMembers bal members).creditorCents = [] :=
            (hcase ▸ hpermC).symm.eq_nil
          constructor
          · have hDsum : ((classifyMembers bal members).debtorCents.map
                (fun e => e.cents)).sum = 0 := by
              have := classifyMembers_sum_split bal members
              rw [hcnil] at this
              simp only [List.map_nil, List.sum_nil] at this
              omega
            exact eq_nil_of_sum_zero_pos _
              (fun e he => (classifyMembers_debtorCents_mem bal members e he).2.2) hDsum
          · exact hcnil
      intro m hm
      obtain ⟨hc1, hc2⟩ := classifyMembers_centsOf_mem bal members hnd m hm
      rw [hDnil.1] at hc2
      rw [hDnil.2] at hc1
      rw [centsOf_nil] at hc1 hc2
      omega
    intro m hm
    unfold replayBalance
    dsimp only
    rw [sentAmt_nil, recvAmt_nil, classifyMembers_netBalances bal members m hm,
      hallzero m hm, fromCents_zero]
    ring
  · rw [if_neg hempty]
    obtain ⟨txs, remD, remC, hloop⟩ := greedyLoop_ok_of_disjoint
      ((List.insertionSort sortByCentsDesc (classifyMembers bal members).debtorCents).length +
        (List.insertionSort sortByCentsDesc (classifyMembers bal members).creditorCents).length)
      _ _ hdisj
    obtain ⟨hor, hposD, hposC, hsums, hamts⟩ :=
      greedyLoop_spec _ _ _ _ _ _ hloop hDpos hCpos (le_refl _)
    have hremnil : remD = [] ∧ remC = [] := by
      rcases hor with hcase | hcase
      · subst hcase
        simp only [List.map_nil, List.sum_nil] at hsums
        refine ⟨rfl, eq_nil_of_sum_zero_pos _ hposC ?_⟩
        omega
      · subst hcase
        simp only [List.map_nil, List.sum_nil] at hsums
        refine ⟨eq_nil_of_sum_zero_pos _ hposD ?_, rfl⟩
        omega
    obtain ⟨hremD, hremC⟩ := hremnil
    subst hremD
    subst hremC
    rw [hloop]
    dsimp only
    rw [if_neg (by simp)]
    refine ⟨_, rfl, rfl, ?_⟩
    intro m hm
    unfold replayBalance
    dsimp only
    obtain ⟨hsent, hrecv⟩ := hamts m
    rw [hsent, hrecv, centsOf_nil, sub_zero, sub_zero,
      centsOf_perm hpermD, centsOf_perm hpermC]
    obtain ⟨hcredit, hdebt⟩ := classifyMembers_centsOf_mem bal members hnd m hm
    rw [hcredit, hdebt, classifyMembers_netBalances bal members m hm,
      fromCents_add, fromCents_sub]
    rw [show bal m + max (-bal m) 0 - max (bal m) 0 = 0 by omega, fromCents_zero]

/-! ### Top-level assembly lemmas -/

theorem calculateTripDebts_replay (expenses : List ExpenseInput) (members : List UserId)
    (hnd : members.Nodup) (hv : validInput expenses members) :
    ∃ out, calculateTripDebts expenses members = .ok out ∧
      ∀ m ∈ members, replayBalance out.netBalances out.settlements m = 0 := by
  obtain ⟨bal, hacc, hptw⟩ := accumulateBalances_ok_of_valid expenses (fun _ => 0) hv
  have hsum : sumBal members bal = 0 := by
    rw [accumulateBalances_sumBal hnd expenses _ bal hacc, sumBal_zero_fun]
  obtain ⟨out, hsp, hnb, hreplay⟩ := settlePhase_replay members bal hnd hsum
  refine ⟨out, ?_, hreplay⟩
  unfold calculateTripDebts
  rw [hacc]
  exact hsp

theorem calculateTripDebts_perm_eq (members : List UserId) (E E' : List ExpenseInput)
    (hperm : E.Perm E') (hv : validInput E members) :
    calculateTripDebts E members = calculateTripDebts E' members := by
  have hv' : validInput E' members := fun e he => hv e (hperm.mem_iff.mpr he)
  obtain ⟨bal, hacc, hptw⟩ := accumulateBalances_ok_of_valid E (fun _ => 0) hv
  obtain ⟨bal', hacc', hptw'⟩ := accumulateBalances_ok_of_valid E' (fun _ => 0) hv'
  have hbal : bal = bal' := by
    funext u
    rw [hptw u, hptw' u, (hperm.map (fun e => expenseDelta members e u)).sum_eq]
  unfold calculateTripDebts
  rw [hacc, hacc', hbal]

/-- The greedy loop, called exactly as `settlePhase` calls it, fully
consumes both sorted lists when members are distinct and balances sum to
zero. -/
theorem greedyLoop_consumes (members : List UserId) (bal : UserId → Int)
    (hnd : members.Nodup) (hsum : sumBal members bal = 0) :
    ∃ txs, greedyLoop
      ((List.insertionSort sortByCentsDesc (classifyMembers bal members).debtorCents).length +
        (List.insertionSort sortByCentsDesc (classifyMembers bal members).creditorCents).length)
      (List.insertionSort sortByCentsDesc (classifyMembers bal members).debtorCents)
      (List.insertionSort sortByCentsDesc (classifyMembers bal members).creditorCents) =
      .ok (txs, [], []) := by
  have hnet : (classifyMembers bal members).netSumCents = 0 := by
    rw [classifyMembers_netSum]
    exact hsum
  have hpermD := List.perm_insertionSort sortByCentsDesc (classifyMembers bal members).debtorCents
  have hpermC := List.perm_insertionSort sortByCentsDesc (classifyMembers bal members).creditorCents
  have hDpos : ∀ e ∈ List.insertionSort sortByCentsDesc (classifyMembers bal members).debtorCents,
      0 < e.cents := fun e he =>
    (classifyMembers_debtorCents_mem bal members e (hpermD.mem_iff.mp he)).2.2
  have hCpos : ∀ e ∈ List.insertionSort sortByCentsDesc (classifyMembers bal members).creditorCents,
      0 < e.cents := fun e he =>
    (classifyMembers_creditorCents_mem bal members e (hpermC.mem_iff.mp he)).2.2
  have hdisj : ∀ d ∈ List.insertionSort sortByCentsDesc (classifyMembers bal members).debtorCents,
      ∀ c ∈ List.insertionSort sortByCentsDesc (classifyMembers bal members).creditorCents,
      d.user_id ≠ c.user_id := by
    intro d hd c hc
    obtain ⟨_, hdc, hdp⟩ := classifyMembers_debtorCents_mem bal members d (hpermD.mem_iff.mp hd)
    obtain ⟨_, hcc, hcp⟩ := classifyMembers_creditorCents_mem bal members c (hpermC.mem_iff.mp hc)
    intro hcon
    rw [hcon] at hdc
    omega
  obtain ⟨txs, remD, remC, hloop⟩ := greedyLoop_ok_of_disjoint _ _ _ hdisj
  obtain ⟨hor, hposD, hposC, hsums, hamts⟩ :=
    greedyLoop_spec _ _ _ _ _ _ hloop hDpos hCpos (le_refl _)
  have hsumeq : ((List.insertionSort sortByCentsDesc
        (classifyMembers bal members).debtorCents).map (fun e => e.cents)).sum =
      ((List.insertionSort sortByCentsDesc
        (classifyMembers bal members).creditorCents).map (fun e => e.cents)).sum := by
    rw [(hpermD.map (fun e => e.cents)).sum_eq, (hpermC.map (fun e => e.cents)).sum_eq]
    have := classifyMembers_sum_split bal members
    omega
  have hremnil : remD = [] ∧ remC = [] := by
    rcases hor with hcase | hcase
    · subst hcase
      simp only [List.map_nil, List.sum_nil] at hsums
      refine ⟨rfl, eq_nil_of_sum_zero_pos _ hposC ?_⟩
      omega
    · subst hcase
      simp only [List.map_nil, List.sum_nil] at hsums
      refine ⟨eq_nil_of_sum_zero_pos _ hposD ?_, rfl⟩
      omega
  obtain ⟨hremD, hremC⟩ := hremnil
  subst hremD
  subst hremC
  exact ⟨txs, hloop⟩

theorem checkExpense_ok_parts {members : List UserId} {e : ExpenseInput} {pc sc : List Int}
    (h : checkExpense members e = .ok (pc, sc)) :
    e.payers ≠ [] ∧ e.shares ≠ [] ∧
      checkPayers members e.id e.payers = .ok pc ∧
      ∃ sc0, checkShares members e.id e.shares = .ok sc0 ∧
        reconcileShares e.id pc.sum sc0 = .ok sc := by
  unfold checkExpense at h
  by_cases hp0 : e.payers = []
  · rw [if_pos hp0] at h; cases h
  · rw [if_neg hp0] at h
    by_cases hs0 : e.shares = []
    · rw [if_pos hs0] at h; cases h
    · rw [if_neg hs0] at h
      split at h
      · cases h
      · rename_i pc0 hcp
        split at h
        · cases h
        · rename_i sc0 hcs
          split at h
          · cases h
          · rename_i sc1 hrec
            cases h
            exact ⟨hp0, hs0, hcp, sc0, hcs, hrec⟩

theorem checkExpense_ok_not_violates {members : List UserId} {e : ExpenseInput}
    {pr : List Int × List Int} (h : checkExpense members e = .ok pr) :
    ¬violatesPrecondition members e := by
  obtain ⟨pc, sc⟩ := pr
  obtain ⟨hp0, hs0, hcp, sc0, hcs, hrec⟩ := checkExpense_ok_parts h
  obtain ⟨_, hallp⟩ := checkPayers_ok hcp
  obtain ⟨_, halls⟩ := checkShares_ok hcs
  intro hviol
  unfold violatesPrecondition at hviol
  rcases hviol with h1 | h1 | h1 | h1 | h1 | h1 | h1 | h1
  · exact hp0 h1
  · exact hs0 h1
  · obtain ⟨p, hp, hnm⟩ := h1
    obtain ⟨c, hc⟩ := hallp p hp
    exact hnm (checkPayer_ok hc).1
  · obtain ⟨s, hs, hnm⟩ := h1
    obtain ⟨c, hc⟩ := halls s hs
    exact hnm (checkShare_ok hc).1
  · obtain ⟨p, hp, hlt⟩ := h1
    obtain ⟨c, hc⟩ := hallp p hp
    rw [(checkPayer_ok hc).2.1] at hlt
    cases hlt
  · obtain ⟨s, hs, hlt⟩ := h1
    obtain ⟨c, hc⟩ := halls s hs
    rw [(checkShare_ok hc).2.1] at hlt
    cases hlt
  · obtain ⟨p, hp, hfin⟩ := h1
    obtain ⟨c, hc⟩ := hallp p hp
    rw [(checkPayer_ok hc).2.2] at hfin
    cases hfin
  · obtain ⟨s, hs, hfin⟩ := h1
    obtain ⟨c, hc⟩ := halls s hs
    rw [(checkShare_ok hc).2.2] at hfin
    cases hfin

theorem calc_fails_of_violation (members : List UserId) (expenses : List ExpenseInput)
    (h : ∃ e ∈ expenses, violatesPrecondition members e) :
    exceptOk (calculateTripDebts expenses members) = false := by
  obtain ⟨e, he, hviol⟩ := h
  have hbad : exceptOk (checkExpense members e) = false := by
    cases hch : checkExpense members e with
    | error e1 => rfl
    | ok pr => exact absurd hviol (checkExpense_ok_not_violates hch)
  obtain ⟨err, herr⟩ := accumulateBalances_error_of_invalid expenses (fun _ => 0) ⟨e, he, hbad⟩
  unfold calculateTripDebts
  rw [herr]
  rfl

/-! ### Concrete inputs used by witnesses and counterexamples -/

/-- Duplicate-member input refuting C1: members list repeats ids, the single
expense is balanced, yet replaying the settlements does not zero member A. -/
def dupReplayExpense : ExpenseInput :=
  { id := "e1",
    payers := [{ user_id := "B", amount_paid := .fin 0.05 }],
    shares := [{ user_id := "A", amount_owed := .fin 0.05 }] }

def dupReplayMembers : List UserId := ["A", "A", "B", "B", "C"]

def dupReplayBal : UserId → Int :=
  applyDeltas (applyDeltas (fun _ => 0) [("B", 5)]) [("A", -5)]

theorem dupReplayAcc :
    accumulateBalances dupReplayMembers [dupReplayExpense] (fun _ => 0) = .ok dupReplayBal := by
  with_unfolding_all rfl

theorem dupReplayCalc :
    calculateTripDebts [dupReplayExpense] dupReplayMembers =
      settlePhase dupReplayMembers dupReplayBal := by
  unfold calculateTripDebts
  rw [dupReplayAcc]

/-- The worked example of the function's doc comment: u1 fronts 60.00 split
equally three ways. -/
def docExample : List ExpenseInput :=
  [{ id := "e1",
     payers := [{ user_id := "u1", amount_paid := .fin 60 }],
     shares := [{ user_id := "u1", amount_owed := .fin 20 },
                { user_id := "u2", amount_owed := .fin 20 },
                { user_id := "u3", amount_owed := .fin 20 }] }]

def docMembers : List UserId := ["u1", "u2", "u3"]

def docBal : UserId → Int :=
  applyDeltas (applyDeltas (fun _ => 0) [("u1", 6000)])
    [("u1", -2000), ("u2", -2000), ("u3", -2000)]

theorem docAcc : accumulateBalances docMembers docExample (fun _ => 0) = .ok docBal := by
  with_unfolding_all rfl

theorem docCalc :
    calculateTripDebts docExample docMembers = settlePhase docMembers docBal := by
  unfold calculateTripDebts
  rw [docAcc]

theorem docSettlements :
    settlementsOf (settlePhase docMembers docBal) =
      [{ payer_id := "u2", payee_id := "u1", amount := fromCents 2000 },
       { payer_id := "u3", payee_id := "u1", amount := fromCents 2000 }] := by
  rfl

/-- Scenario 3 of the spec: A pays 100.00, shares 33.33/33.33/33.34. -/
def scenario3 : List ExpenseInput :=
  [{ id := "e1",
     payers := [{ user_id := "A", amount_paid := .fin 100 }],
     shares := [{ user_id := "A", amount_owed := .fin 33.33 },
                { user_id := "B", amount_owed := .fin 33.33 },
                { user_id := "C", amount_owed := .fin 33.34 }] }]

def scenario3Members : List UserId := ["A", "B", "C"]

def scenario3Bal : UserId → Int :=
  applyDeltas (applyDeltas (fun _ => 0) [("A", 10000)])
    [("A", -3333), ("B", -3333), ("C", -3334)]

theorem scenario3Acc :
    accumulateBalances scenario3Members scenario3 (fun _ => 0) = .ok scenario3Bal := by
  with_unfolding_all rfl

theorem scenario3Calc :
    calculateTripDebts scenario3 scenario3Members = settlePhase scenario3Members scenario3Bal := by
  unfold calculateTripDebts
  rw [scenario3Acc]

theorem scenario3Settlements :
    settlementsOf (settlePhase scenario3Members scenario3Bal) =
      [{ payer_id := "C", payee_id := "A", amount := fromCents 3334 },
       { payer_id := "B", payee_id := "A", amount := fromCents 3333 }] := by
  rfl

/-! ### Claim theorems -/

/-- Claim C1, counterexample: the claim as stated omits distinctness of
`members`.  With the duplicated roster `["A","A","B","B","C"]` and one
balanced, fully valid expense (B paid 0.05, A owes 0.05), the call
succeeds, yet replaying every emitted settlement against the net balances
leaves member A at +0.05 instead of zero. -/
theorem claim1_counterexample :
    validInput [dupReplayExpense] dupReplayMembers ∧
      exceptOk (calculateTripDebts [dupReplayExpense] dupReplayMembers) = true ∧
      replayBalance (netBalancesOf (calculateTripDebts [dupReplayExpense] dupReplayMembers))
        (settlementsOf (calculateTripDebts [dupReplayExpense] dupReplayMembers)) "A" ≠ 0 := by
  refine ⟨by with_unfolding_all decide, ?_, ?_⟩
  · rw [dupReplayCalc]
    rfl
  · rw [dupReplayCalc]
    have hnb : netBalancesOf (settlePhase dupReplayMembers dupReplayBal) "A" =
        fromCents (-5) := by rfl
    have hst : settlementsOf (settlePhase dupReplayMembers dupReplayBal) =
        [{ payer_id := "A", payee_id := "B", amount := fromCents 5 },
         { payer_id := "A", payee_id := "B", amount := fromCents 5 }] := by rfl
    unfold replayBalance
    rw [hnb, hst]
    simp only [sentAmt, recvAmt, List.map_cons, List.map_nil, List.sum_cons, List.sum_nil,
      eq_false (by decide : ¬(("B" : UserId) = "A")), if_false]
    norm_num [fromCents]

/-- Claim C1, amended with the implicit requirement that member ids be
pairwise distinct: for every valid input (per-expense checks succeed and
every expense reconciles), the call succeeds and replaying every emitted
settlement — adding its amount to the payer's balance and subtracting it
from the payee's — drives every member's net balance to exactly zero. -/
theorem claim1_replay_zero (expenses : List ExpenseInput) (members : List UserId)
    (hnd : members.Nodup) (hv : validInput expenses members) :
    ∃ out, calculateTripDebts expenses members = .ok out ∧
      ∀ m ∈ members, replayBalance out.netBalances out.settlements m = 0 :=
  calculateTripDebts_replay expenses members hnd hv

/-- Witness for C1's amended theorem at the doc-comment example. -/
theorem claim1_witness :
    docMembers.Nodup ∧ validInput docExample docMembers ∧
      ∃ out, calculateTripDebts docExample docMembers = .ok out ∧
        ∀ m ∈ docMembers, replayBalance out.netBalances out.settlements m = 0 :=
  ⟨by decide, by with_unfolding_all decide,
    claim1_replay_zero docExample docMembers (by decide) (by with_unfolding_all decide)⟩

/-- Duplicate-member input refuting C2 as stated. -/
def dupSumExpense : ExpenseInput :=
  { id := "d1",
    payers := [{ user_id := "p", amount_paid := .fin 10 }],
    shares := [{ user_id := "q", amount_owed := .fin 10 }] }

set_option maxRecDepth 2000 in
/-- Claim C2, counterexample: the claim omits distinctness of `members`.
With roster `["p","p","q"]` and one balanced, fully valid expense, the
grand total over member occurrences is 1000 cents, and the defensive
'Net balances do not sum to zero' error is reached. -/
theorem claim2_counterexample :
    validInput [dupSumExpense] ["p", "p", "q"] ∧
      errorOf (calculateTripDebts [dupSumExpense] ["p", "p", "q"]) =
        some (.netNotZero 1000) := by
  constructor
  · with_unfolding_all decide
  · with_unfolding_all decide

/-- Claim C2, amended with pairwise-distinct member ids: for every input
whose per-expense validation and rounding reconciliation succeed, the
accumulated balances exist, the grand total of all members' balance cents
is exactly zero, the greedy matching loop (called exactly as the function
calls it) fully consumes both the debtor and creditor lists, and the whole
call succeeds — so the two defensive fatal errors are unreachable. -/
theorem claim2_defensive_unreachable (expenses : List ExpenseInput)
    (members : List UserId) (hnd : members.Nodup) (hv : validInput expenses members) :
    ∃ bal, accumulateBalances members expenses (fun _ => 0) = .ok bal ∧
      (classifyMembers bal members).netSumCents = 0 ∧
      (∃ txs, greedyLoop
        ((List.insertionSort sortByCentsDesc (classifyMembers bal members).debtorCents).length +
          (List.insertionSort sortByCentsDesc (classifyMembers bal members).creditorCents).length)
        (List.insertionSort sortByCentsDesc (classifyMembers bal members).debtorCents)
        (List.insertionSort sortByCentsDesc (classifyMembers bal members).creditorCents) =
        .ok (txs, [], [])) ∧
      exceptOk (calculateTripDebts expenses members) = true := by
  obtain ⟨bal, hacc, _⟩ := accumulateBalances_ok_of_valid expenses (fun _ => 0) hv
  have hsum : sumBal members bal = 0 := by
    rw [accumulateBalances_sumBal hnd expenses _ bal hacc, sumBal_zero_fun]
  have hnet : (classifyMembers bal members).netSumCents = 0 := by
    rw [classifyMembers_netSum]
    exact hsum
  obtain ⟨txs, hloop⟩ := greedyLoop_consumes members bal hnd hsum
  obtain ⟨out, hsp, _, _⟩ := settlePhase_replay members bal hnd hsum
  refine ⟨bal, hacc, hnet, ⟨txs, hloop⟩, ?_⟩
  unfold calculateTripDebts
  rw [hacc]
  dsimp only
  rw [hsp]
  rfl

def claim2WitnessExpense : ExpenseInput :=
  { id := "w",
    payers := [{ user_id := "v1", amount_paid := .fin 10 }],
    shares := [{ user_id := "v2", amount_owed := .fin 10 }] }

/-- Witness for C2's amended theorem: two members, one expense. -/
theorem claim2_witness :
    (["v1", "v2"] : List UserId).Nodup ∧
      validInput [claim2WitnessExpense] ["v1", "v2"] ∧
      ∃ bal, accumulateBalances ["v1", "v2"] [claim2WitnessExpense] (fun _ => 0) = .ok bal ∧
        (classifyMembers bal ["v1", "v2"]).netSumCents = 0 ∧
        (∃ txs, greedyLoop
          ((List.insertionSort sortByCentsDesc (classifyMembers bal ["v1", "v2"]).debtorCents).length +
            (List.insertionSort sortByCentsDesc (classifyMembers bal ["v1", "v2"]).creditorCents).length)
          (List.insertionSort sortByCentsDesc (classifyMembers bal ["v1", "v2"]).debtorCents)
          (List.insertionSort sortByCentsDesc (classifyMembers bal ["v1", "v2"]).creditorCents) =
          .ok (txs, [], [])) ∧
        exceptOk (calculateTripDebts [claim2WitnessExpense] ["v1", "v2"]) = true :=
  ⟨by decide, by with_unfolding_all decide,
    claim2_defensive_unreachable _ _ (by decide) (by with_unfolding_all decide)⟩

/-- Claim C3 (confirmed): when an expense's summed payer cents differ from
its summed share cents, the whole difference is applied to the largest
single share (ties broken by first occurrence in input order: every earlier
index holds a strictly smaller share), and the reconciliation fails with an
unbalanceable-expense error naming the expense id exactly when the adjusted
share would be negative — an adjusted share of exactly zero is accepted.
`reconcileShares` is the rounding-reconciliation phase of
`calculateTripDebts`, applied to each expense. -/
theorem claim3_rounding_reconciliation (eid : String) (totalPaidCents : Int)
    (sc : List Int) (hne : sc ≠ []) (hdiff : totalPaidCents - sc.sum ≠ 0) :
    bestShareIndex sc < sc.length ∧
      (∀ k < sc.length, sc.getD k 0 ≤ sc.getD (bestShareIndex sc) 0) ∧
      (∀ k < bestShareIndex sc, sc.getD k 0 < sc.getD (bestShareIndex sc) 0) ∧
      ((sc.getD (bestShareIndex sc) 0 + (totalPaidCents - sc.sum) < 0 ∧
          reconcileShares eid totalPaidCents sc =
            .error (.unbalanceable eid (totalPaidCents - sc.sum))) ∨
        (0 ≤ sc.getD (bestShareIndex sc) 0 + (totalPaidCents - sc.sum) ∧
          reconcileShares eid totalPaidCents sc =
            .ok (sc.set (bestShareIndex sc)
              (sc.getD (bestShareIndex sc) 0 + (totalPaidCents - sc.sum))))) := by
  obtain ⟨hlt, hmax, hstrict⟩ := bestShareIndex_spec sc hne
  refine ⟨hlt, hmax, hstrict, ?_⟩
  unfold reconcileShares
  rw [if_neg hdiff]
  by_cases hadj : sc.getD (bestShareIndex sc) 0 + (totalPaidCents - sc.sum) < 0
  · rw [if_pos hadj]
    exact Or.inl ⟨hadj, rfl⟩
  · rw [if_neg hadj]
    exact Or.inr ⟨by omega, rfl⟩

def claim3Shares : List Int := [300, 399, 300]

/-- Witness for C3 at a concrete expense: paid 1000 cents against shares
[300, 399, 300] (owed 999), so one cent lands on index 1. -/
theorem claim3_witness :
    claim3Shares ≠ [] ∧ (1000 : Int) - claim3Shares.sum ≠ 0 ∧
      (bestShareIndex claim3Shares < claim3Shares.length ∧
        (∀ k < claim3Shares.length,
          claim3Shares.getD k 0 ≤ claim3Shares.getD (bestShareIndex claim3Shares) 0) ∧
        (∀ k < bestShareIndex claim3Shares,
          claim3Shares.getD k 0 < claim3Shares.getD (bestShareIndex claim3Shares) 0) ∧
        ((claim3Shares.getD (bestShareIndex claim3Shares) 0 +
              ((1000 : Int) - claim3Shares.sum) < 0 ∧
            reconcileShares "e3" 1000 claim3Shares =
              .error (.unbalanceable "e3" ((1000 : Int) - claim3Shares.sum))) ∨
          (0 ≤ claim3Shares.getD (bestShareIndex claim3Shares) 0 +
              ((1000 : Int) - claim3Shares.sum) ∧
            reconcileShares "e3" 1000 claim3Shares =
              .ok (claim3Shares.set (bestShareIndex claim3Shares)
                (claim3Shares.getD (bestShareIndex claim3Shares) 0 +
                  ((1000 : Int) - claim3Shares.sum)))))) :=
  ⟨by decide, by decide,
    claim3_rounding_reconciliation "e3" 1000 claim3Shares (by decide) (by decide)⟩

/-- Claim C4 (confirmed): for every input, the greedy matching loop (a
total function in this model, with an iteration bound it provably never
exhausts) emits at most `len(debtors) + len(creditors) - 1` settlement
transactions, where `debtors` and `creditors` are the members with nonzero
negative and positive balances; on a failed call nothing is emitted. -/
theorem claim4_settlement_count_bound (expenses : List ExpenseInput)
    (members : List UserId) :
    (settlementsOf (calculateTripDebts expenses members)).length ≤
      (debtorsOf (calculateTripDebts expenses members)).length +
        (creditorsOf (calculateTripDebts expenses members)).length - 1 := by
  cases hcalc : calculateTripDebts expenses members with
  | error err =>
    unfold settlementsOf debtorsOf creditorsOf
    simp
  | ok out =>
    unfold settlementsOf debtorsOf creditorsOf
    dsimp only
    obtain ⟨bal, hacc, hsp⟩ := calculateTripDebts_ok_settle hcalc
    obtain ⟨hnb, hcred, hdebt, hsett⟩ := settlePhase_ok_cases hsp
    rcases hsett with hnil | ⟨remD, remC, hloop⟩
    · rw [hnil]
      simp
    · have hbound := greedyLoop_length_bound _ _ _ _ _ _ hloop
      rw [List.length_insertionSort, List.length_insertionSort] at hbound
      obtain ⟨hlc, hld⟩ := classifyMembers_lengths bal members
      rw [hcred, hdebt, hlc, hld]
      omega

/-- NaN input for C5's counterexample. -/
def nanExpense : ExpenseInput :=
  { id := "e9",
    payers := [{ user_id := "N", amount_paid := .nan }],
    shares := [{ user_id := "N", amount_owed := .fin 1 }] }

/-- Claim C5, counterexample: a NaN `amount_paid` violates the finiteness
precondition, and the call does fail — but with the `toCents` error
`Invalid amount: NaN`, which carries no expense id, so the error does not
identify the offending expense as the claim states. -/
theorem claim5_counterexample :
    violatesPrecondition ["N"] nanExpense ∧
      calculateTripDebts [nanExpense] ["N"] = .error (.invalidAmount .nan) ∧
      DebtError.expenseId (.invalidAmount .nan) = none := by
  refine ⟨by decide, ?_, rfl⟩
  rfl

/-- Claim C5, amended: every input containing an expense that violates a
precondition (empty payers or shares, a payer or share user id outside
`members`, a negative amount, a non-finite amount) makes
`calculateTripDebts` fail with an error — no partial output exists, since
the result is the error alone — and every per-expense validation error
either carries the offending expense's id, or is the non-finite-amount
error, which carries only the offending value (one of that expense's
amounts) and no expense id. -/
theorem claim5_validation_failure :
    (∀ (members : List UserId) (expenses : List ExpenseInput),
      (∃ e ∈ expenses, violatesPrecondition members e) →
        exceptOk (calculateTripDebts expenses members) = false) ∧
    (∀ (members : List UserId) (e : ExpenseInput) (err : DebtError),
      checkExpense members e = .error err →
        DebtError.expenseId err = some e.id ∨
          (∃ a, err = .invalidAmount a ∧ a.isFinite = false ∧
            ((∃ p ∈ e.payers, p.amount_paid = a) ∨ (∃ s ∈ e.shares, s.amount_owed = a)))) :=
  ⟨fun members expenses h => calc_fails_of_violation members expenses h,
    fun _ _ _ h => checkExpense_error h⟩

/-- Empty-payers input for C5's witness. -/
def emptyPayersExpense : ExpenseInput :=
  { id := "z1", payers := [], shares := [{ user_id := "M", amount_owed := .fin 1 }] }

/-- Witness for C5's amended theorem at an expense with no payers. -/
theorem claim5_witness :
    (∃ e ∈ [emptyPayersExpense], violatesPrecondition ["M"] e) ∧
      exceptOk (calculateTripDebts [emptyPayersExpense] ["M"]) = false :=
  ⟨by decide, claim5_validation_failure.1 ["M"] [emptyPayersExpense] (by decide)⟩

/-- Claim C6 (confirmed, for all inputs whose call succeeds — in
particular for every valid input): every emitted settlement transaction has
a strictly positive amount, a payer different from its payee, and both ids
belong to the members roster. -/
theorem claim6_transaction_invariants (expenses : List ExpenseInput)
    (members : List UserId) (tx : SettlementTransaction)
    (htx : tx ∈ settlementsOf (calculateTripDebts expenses members)) :
    0 < tx.amount ∧ tx.payer_id ≠ tx.payee_id ∧
      tx.payer_id ∈ members ∧ tx.payee_id ∈ members := by
  cases hcalc : calculateTripDebts expenses members with
  | error err =>
    rw [hcalc] at htx
    cases htx
  | ok out =>
    rw [hcalc] at htx
    unfold settlementsOf at htx
    dsimp only at htx
    obtain ⟨bal, hacc, hsp⟩ := calculateTripDebts_ok_settle hcalc
    obtain ⟨hnb, hcred, hdebt, hsett⟩ := settlePhase_ok_cases hsp
    rcases hsett with hnil | ⟨remD, remC, hloop⟩
    · rw [hnil] at htx
      cases htx
    · obtain ⟨hpos, hne, hpayer, hpayee⟩ := greedyLoop_txs_mem _ _ _ _ _ _ hloop tx htx
      refine ⟨hpos, hne, ?_, ?_⟩
      · obtain ⟨e, he, hee⟩ := List.mem_map.mp hpayer
        have he2 := (List.perm_insertionSort sortByCentsDesc _).mem_iff.mp he
        rw [← hee]
        exact (classifyMembers_debtorCents_mem bal members e he2).1
      · obtain ⟨e, he, hee⟩ := List.mem_map.mp hpayee
        have he2 := (List.perm_insertionSort sortByCentsDesc _).mem_iff.mp he
        rw [← hee]
        exact (classifyMembers_creditorCents_mem bal members e he2).1

/-- Witness for C6 at the doc-comment example, transaction u2 pays u1. -/
theorem claim6_witness :
    ({ payer_id := "u2", payee_id := "u1", amount := fromCents 2000 } :
        SettlementTransaction) ∈ settlementsOf (calculateTripDebts docExample docMembers) ∧
      (0 < ({ payer_id := "u2", payee_id := "u1", amount := fromCents 2000 } :
          SettlementTransaction).amount ∧
        ({ payer_id := "u2", payee_id := "u1", amount := fromCents 2000 } :
          SettlementTransaction).payer_id ≠
          ({ payer_id := "u2", payee_id := "u1", amount := fromCents 2000 } :
            SettlementTransaction).payee_id ∧
        ({ payer_id := "u2", payee_id := "u1", amount := fromCents 2000 } :
          SettlementTransaction).payer_id ∈ docMembers ∧
        ({ payer_id := "u2", payee_id := "u1", amount := fromCents 2000 } :
          SettlementTransaction).payee_id ∈ docMembers) := by
  have hmem : ({ payer_id := "u2", payee_id := "u1", amount := fromCents 2000 } :
      SettlementTransaction) ∈ settlementsOf (calculateTripDebts docExample docMembers) := by
    rw [docCalc, docSettlements]
    exact List.mem_cons_self _ _
  exact ⟨hmem, claim6_transaction_invariants docExample docMembers _ hmem⟩

/-- Claim C7 (confirmed): permuting the expenses list of a valid input does
not change the computed net balances (in fact the whole result is equal,
and in particular the `netBalances` map extracted from it). -/
theorem claim7_expense_order_invariance (members : List UserId)
    (E E' : List ExpenseInput) (hperm : E.Perm E') (hv : validInput E members) :
    Except.map (fun o => o.netBalances) (calculateTripDebts E members) =
      Except.map (fun o => o.netBalances) (calculateTripDebts E' members) := by
  rw [calculateTripDebts_perm_eq members E E' hperm hv]

def permExpenseA : ExpenseInput :=
  { id := "a1",
    payers := [{ user_id := "a", amount_paid := .fin 1 }],
    shares := [{ user_id := "b", amount_owed := .fin 1 }] }

def permExpenseB : ExpenseInput :=
  { id := "b1",
    payers := [{ user_id := "b", amount_paid := .fin 2 }],
    shares := [{ user_id := "a", amount_owed := .fin 2 }] }

/-- Witness for C7 on two swapped expenses. -/
theorem claim7_witness :
    ([permExpenseA, permExpenseB].Perm [permExpenseB, permExpenseA]) ∧
      validInput [permExpenseA, permExpenseB] ["a", "b"] ∧
      Except.map (fun o => o.netBalances)
          (calculateTripDebts [permExpenseA, permExpenseB] ["a", "b"]) =
        Except.map (fun o => o.netBalances)
          (calculateTripDebts [permExpenseB, permExpenseA] ["a", "b"]) :=
  ⟨by decide, by with_unfolding_all decide,
    claim7_expense_order_invariance ["a", "b"] _ _ (by decide) (by with_unfolding_all decide)⟩

/-- Claim C8, counterexample: on members ["A","B","C"] with A paying
100.00 split 33.33/33.33/33.34, the code computes A's net balance as 66.67
(not the claimed 66.66) and the two settlements sum to 66.67 (not the
claimed 100.00). -/
theorem claim8_counterexample :
    netBalancesOf (calculateTripDebts scenario3 scenario3Members) "A" = fromCents 6667 ∧
      ((settlementsOf (calculateTripDebts scenario3 scenario3Members)).map
        (fun t => t.amount)).sum = fromCents 6667 ∧
      fromCents 6667 ≠ (6666 : ℚ) / 100 ∧ fromCents 6667 ≠ 100 := by
  refine ⟨?_, ?_, ?_, ?_⟩
  · rw [scenario3Calc]
    rfl
  · rw [scenario3Calc, scenario3Settlements]
    simp only [List.map_cons, List.map_nil, List.sum_cons, List.sum_nil]
    rw [add_zero, fromCents_add]
    norm_num
  · norm_num [fromCents]
  · norm_num [fromCents]

/-- Claim C8, amended to what the code computes: for members ["A","B","C"]
and the single expense in which A pays 100.00 with shares A:33.33,
B:33.33, C:33.34, the call returns netBalances {A: 66.67, B: -33.33,
C: -33.34} and exactly two settlement transactions, both sent to A,
whose amounts sum to exactly 66.67. -/
theorem claim8_scenario3 :
    netBalancesOf (calculateTripDebts scenario3 scenario3Members) "A" = (66.67 : ℚ) ∧
      netBalancesOf (calculateTripDebts scenario3 scenario3Members) "B" = (-33.33 : ℚ) ∧
      netBalancesOf (calculateTripDebts scenario3 scenario3Members) "C" = (-33.34 : ℚ) ∧
      settlementsOf (calculateTripDebts scenario3 scenario3Members) =
        [{ payer_id := "C", payee_id := "A", amount := fromCents 3334 },
         { payer_id := "B", payee_id := "A", amount := fromCents 3333 }] ∧
      ((settlementsOf (calculateTripDebts scenario3 scenario3Members)).map
        (fun t => t.amount)).sum = (66.67 : ℚ) ∧
      (∀ tx ∈ settlementsOf (calculateTripDebts scenario3 scenario3Members),
        tx.payee_id = "A") := by
  have hA : netBalancesOf (calculateTripDebts scenario3 scenario3Members) "A" =
      fromCents 6667 := by
    rw [scenario3Calc]
    rfl
  have hB : netBalancesOf (calculateTripDebts scenario3 scenario3Members) "B" =
      fromCents (-3333) := by
    rw [scenario3Calc]
    rfl
  have hC : netBalancesOf (calculateTripDebts scenario3 scenario3Members) "C" =
      fromCents (-3334) := by
    rw [scenario3Calc]
    rfl
  have hS := scenario3Settlements
  refine ⟨by rw [hA]; norm_num [fromCents], by rw [hB]; norm_num [fromCents],
    by rw [hC]; norm_num [fromCents], by rw [scenario3Calc]; exact hS, ?_, ?_⟩
  · rw [scenario3Calc, hS]
    simp only [List.map_cons, List.map_nil, List.sum_cons, List.sum_nil]
    norm_num [fromCents]
  · rw [scenario3Calc, hS]
    intro tx htx
    rcases List.mem_cons.mp htx with rfl | htx
    · rfl
    · rcases List.mem_cons.mp htx with rfl | htx
      · rfl
      · cases htx

/-- Balanced expense over a duplicated roster for C9. -/
def dupNetExpense : ExpenseInput :=
  { id := "x1",
    payers := [{ user_id := "x", amount_paid := .fin 10 }],
    shares := [{ user_id := "y", amount_owed := .fin 10 }] }

set_option maxRecDepth 2000 in
/-- Claim C9 (confirmed): `calculateTripDebts` implicitly requires the
member ids to be pairwise distinct.  With members ["x","x","y"] and a
single individually balanced, fully valid expense (x paid 10.00, y owes
10.00), the duplicated member's +1000 cents are added to the grand total
once per occurrence, so the call fails with the defensive
'Net balances do not sum to zero' error carrying 1000 cents. -/
theorem claim9_duplicate_members :
    validInput [dupNetExpense] ["x", "x", "y"] ∧
      checkExpense ["x", "x", "y"] dupNetExpense = .ok ([1000], [1000]) ∧
      errorOf (calculateTripDebts [dupNetExpense] ["x", "x", "y"]) =
        some (.netNotZero 1000) := by
  refine ⟨?_, ?_, ?_⟩
  · with_unfolding_all decide
  · with_unfolding_all decide
  · with_unfolding_all decide

/-- Claim C10 (confirmed): for every input with pairwise distinct member
ids (indeed for every input, because classification by the sign of the
balance already makes the debtor and creditor id sets disjoint), the
defensive 'Invalid settlement: self-payment would occur' error inside the
greedy matching loop is unreachable. -/
theorem claim10_selfpayment_unreachable (expenses : List ExpenseInput)
    (members : List UserId) (hnd : members.Nodup) :
    calculateTripDebts expenses members ≠ .error .selfPayment := by
  intro hcon
  rcases calculateTripDebts_error_cases hcon with ⟨e, _, hch⟩ | ⟨s, hs⟩ | hu
  · rcases checkExpense_error hch with h1 | ⟨a, h1, _, _⟩
    · simp [DebtError.expenseId] at h1
    · cases h1
  · cases hs
  · cases hu

/-- Witness for C10 on a distinct two-member roster. -/
theorem claim10_witness :
    (["w1", "w2"] : List UserId).Nodup ∧
      calculateTripDebts [] ["w1", "w2"] ≠ .error .selfPayment :=
  ⟨by decide, claim10_selfpayment_unreachable [] ["w1", "w2"] (by decide)⟩
